import Mathlib

/-!
# Auto-Time-Logger: verification of the log-store and Gemini-client core

Shallow embedding of the extension's core modules:
* `src/utils/fsHelper.ts` — log store (`readLogFile`, `writeLogFile`,
  `appendLogEntry`, `ensureDir`, `writeTimesheetFile`, `fileExists`) and the
  duplicate guard (`isDuplicateEntry`);
* `src/utils/geminiHelper.ts` — fallback orchestrator
  (`generateContentWithFallback`), `summarizeCode`, `generateTimesheetFromLogs`;
* `src/commands/generateTimesheet.ts` — the end-of-day command flow.

The TypeScript code stores day logs as JSON text produced by
`JSON.stringify(entries, null, 2)` and reads them back with `JSON.parse`, so
the embedding includes an executable model of the JSON serializer (2-space
indentation, standard string escaping) and of a strict JSON parser.  JSON
numbers are kept as their source lexeme (a `String`): no claim depends on
numeric value semantics, only on parse success or failure.  Strings are
sequences of unicode scalar values (Lean `Char`); WTF-16 lone surrogates,
which `JSON.parse` would accept inside `\u` escapes, are outside the model.

The file system is a pair of a directory set and a path-to-content map;
`fs.writeFileSync` fails when the parent directory is missing (Node `ENOENT`),
and `fs.mkdirSync(p, recursive)` creates all ancestors.  Calls into external
services (`model.generateContent`) and `new Date(x).getTime()` are oracles
passed as explicit function parameters.
-/

/-! ## Characters and small helpers -/

/-- Left brace character (spelled via its code point). -/
def lbrace : Char := Char.ofNat 123

/-- Right brace character (spelled via its code point). -/
def rbrace : Char := Char.ofNat 125

/-- Backtick character (spelled via its code point). -/
def btick : Char := Char.ofNat 96

/-- JSON insignificant whitespace (RFC 8259: space, tab, LF, CR). -/
def jsonWsB (c : Char) : Bool :=
  c = ' ' || c = '\t' || c = '\n' || c = '\r'

/-- JavaScript whitespace as used by `String.prototype.trim` and the regex
class `\s`: ASCII whitespace plus NBSP and BOM (the exotic unicode space
variants are irrelevant to every claim and omitted). -/
def jsWsB (c : Char) : Bool :=
  c = ' ' || c = '\t' || c = '\n' || c = '\r' ||
  c = Char.ofNat 11 || c = Char.ofNat 12 || c = Char.ofNat 160 || c = Char.ofNat 65279

/-- Drop JS whitespace from both ends of a character list. -/
def trimChars (cs : List Char) : List Char :=
  ((cs.dropWhile jsWsB).reverse.dropWhile jsWsB).reverse

/-- Model of JavaScript `s.trim()`. -/
def jsTrim (s : String) : String := String.mk (trimChars s.data)

/-- Hex digit character for a value below 16 (lowercase, as emitted by
`JSON.stringify` in `\u00xx` escapes). -/
def hexDigitChar (n : Nat) : Char :=
  if n < 10 then Char.ofNat (48 + n) else Char.ofNat (87 + n)

/-- Numeric value of a hex digit character, `none` for non-hex characters. -/
def hexVal (c : Char) : Option Nat :=
  if 48 ≤ c.toNat ∧ c.toNat ≤ 57 then some (c.toNat - 48)
  else if 97 ≤ c.toNat ∧ c.toNat ≤ 102 then some (c.toNat - 87)
  else if 65 ≤ c.toNat ∧ c.toNat ≤ 70 then some (c.toNat - 55)
  else none

/-! ## JSON values -/

/-- A JSON value as produced by `JSON.parse`.  Numeric literals keep their
source lexeme; object fields keep their source order (later duplicate keys
shadow earlier ones on lookup, as in JavaScript object construction). -/
inductive Json where
  | null : Json
  | bool (b : Bool) : Json
  | num (lexeme : String) : Json
  | str (s : String) : Json
  | arr (elems : List Json) : Json
  | obj (fields : List (String × Json)) : Json

mutual

/-- Structural equality test for JSON values. -/
def jsonBEq : Json → Json → Bool
  | .null, .null => true
  | .bool a, .bool b => a == b
  | .num a, .num b => a == b
  | .str a, .str b => a == b
  | .arr a, .arr b => jsonBEqList a b
  | .obj a, .obj b => jsonBEqFields a b
  | _, _ => false

/-- Structural equality test for JSON value lists. -/
def jsonBEqList : List Json → List Json → Bool
  | [], [] => true
  | x :: xs, y :: ys => jsonBEq x y && jsonBEqList xs ys
  | _, _ => false

/-- Structural equality test for JSON member lists. -/
def jsonBEqFields : List (String × Json) → List (String × Json) → Bool
  | [], [] => true
  | (k, v) :: xs, (l, w) :: ys => k == l && (jsonBEq v w && jsonBEqFields xs ys)
  | _, _ => false

end

mutual

theorem jsonBEq_eq : ∀ a b, jsonBEq a b = true → a = b
  | .null, .null, _ => rfl
  | .bool a, .bool b, h => by
    simp only [jsonBEq, beq_iff_eq] at h; exact h ▸ rfl
  | .num a, .num b, h => by
    simp only [jsonBEq, beq_iff_eq] at h; exact h ▸ rfl
  | .str a, .str b, h => by
    simp only [jsonBEq, beq_iff_eq] at h; exact h ▸ rfl
  | .arr a, .arr b, h => by
    simp only [jsonBEq] at h
    exact congrArg Json.arr (jsonBEqList_eq a b h)
  | .obj a, .obj b, h => by
    simp only [jsonBEq] at h
    exact congrArg Json.obj (jsonBEqFields_eq a b h)

theorem jsonBEqList_eq : ∀ a b, jsonBEqList a b = true → a = b
  | [], [], _ => rfl
  | x :: xs, y :: ys, h => by
    simp only [jsonBEqList, Bool.and_eq_true] at h
    exact congrArg₂ List.cons (jsonBEq_eq x y h.1) (jsonBEqList_eq xs ys h.2)

theorem jsonBEqFields_eq : ∀ a b, jsonBEqFields a b = true → a = b
  | [], [], _ => rfl
  | (k, v) :: xs, (l, w) :: ys, h => by
    simp only [jsonBEqFields, Bool.and_eq_true, beq_iff_eq] at h
    have h1 : (k, v) = (l, w) := by
      rw [h.1, jsonBEq_eq v w h.2.1]
    exact congrArg₂ List.cons h1 (jsonBEqFields_eq xs ys h.2.2)

end

mutual

theorem jsonBEq_refl : ∀ a, jsonBEq a a = true
  | .null => rfl
  | .bool a => by simp [jsonBEq]
  | .num a => by simp [jsonBEq]
  | .str a => by simp [jsonBEq]
  | .arr a => by simp only [jsonBEq]; exact jsonBEqList_refl a
  | .obj a => by simp only [jsonBEq]; exact jsonBEqFields_refl a

theorem jsonBEqList_refl : ∀ a, jsonBEqList a a = true
  | [] => rfl
  | x :: xs => by
    simp only [jsonBEqList, Bool.and_eq_true]
    exact ⟨jsonBEq_refl x, jsonBEqList_refl xs⟩

theorem jsonBEqFields_refl : ∀ a, jsonBEqFields a a = true
  | [] => rfl
  | (k, v) :: xs => by
    simp only [jsonBEqFields, Bool.and_eq_true, beq_self_eq_true, true_and]
    exact ⟨jsonBEq_refl v, jsonBEqFields_refl xs⟩

end

instance : DecidableEq Json := fun a b =>
  if h : jsonBEq a b = true then isTrue (jsonBEq_eq a b h)
  else isFalse (fun he => h (he ▸ jsonBEq_refl a))

/-! ## Serialization: `JSON.stringify(v, null, 2)` -/

/-- Escape one character as inside a JSON string literal, following
`JSON.stringify` (quote, backslash, the short control escapes, `\u00xx`
for the remaining control characters, everything else verbatim). -/
def escapeChar (c : Char) : List Char :=
  if c = '"' then ['\\', '"']
  else if c = '\\' then ['\\', '\\']
  else if c = Char.ofNat 8 then ['\\', 'b']
  else if c = Char.ofNat 12 then ['\\', 'f']
  else if c = '\n' then ['\\', 'n']
  else if c = '\r' then ['\\', 'r']
  else if c = '\t' then ['\\', 't']
  else if c.toNat < 32 then
    ['\\', 'u', '0', '0', hexDigitChar (c.toNat / 16), hexDigitChar (c.toNat % 16)]
  else [c]

/-- Escape a character sequence for a JSON string literal. -/
def escapeChars : List Char → List Char
  | [] => []
  | c :: cs => escapeChar c ++ escapeChars cs

/-- A quoted JSON string literal. -/
def quoteStr (s : String) : List Char :=
  '"' :: (escapeChars s.data ++ ['"'])

/-- Indentation: `2 * n` spaces (the `null, 2` gap of `JSON.stringify`). -/
def indentChars (n : Nat) : List Char := List.replicate (2 * n) ' '

mutual

/-- Serialize a JSON value at nesting level `i`, following
`JSON.stringify(v, null, 2)`. -/
def printAt (i : Nat) : Json → List Char
  | .null => "null".data
  | .bool true => "true".data
  | .bool false => "false".data
  | .num lx => lx.data
  | .str s => quoteStr s
  | .arr xs => '[' :: printArrTail i xs
  | .obj fs => lbrace :: printObjTail i fs

/-- Everything after the opening bracket of an array. -/
def printArrTail (i : Nat) : List Json → List Char
  | [] => [']']
  | x :: xs => '\n' :: (indentChars (i + 1) ++ printAt (i + 1) x ++ printArrSep i xs)

/-- Remaining array elements after the first, then the closing bracket. -/
def printArrSep (i : Nat) : List Json → List Char
  | [] => '\n' :: (indentChars i ++ [']'])
  | x :: xs => ',' :: '\n' :: (indentChars (i + 1) ++ printAt (i + 1) x ++ printArrSep i xs)

/-- Everything after the opening brace of an object. -/
def printObjTail (i : Nat) : List (String × Json) → List Char
  | [] => [rbrace]
  | (k, v) :: fs =>
      '\n' :: (indentChars (i + 1) ++ quoteStr k ++ ':' :: ' ' ::
        (printAt (i + 1) v ++ printObjSep i fs))

/-- Remaining object members after the first, then the closing brace. -/
def printObjSep (i : Nat) : List (String × Json) → List Char
  | [] => '\n' :: (indentChars i ++ [rbrace])
  | (k, v) :: fs =>
      ',' :: '\n' :: (indentChars (i + 1) ++ quoteStr k ++ ':' :: ' ' ::
        (printAt (i + 1) v ++ printObjSep i fs))

end

/-- Model of `JSON.stringify(v, null, 2)`. -/
def stringifyTop (v : Json) : String := String.mk (printAt 0 v)

/-! ## Parsing: `JSON.parse` -/

/-- Skip JSON insignificant whitespace. -/
def skipWs : List Char → List Char
  | [] => []
  | c :: cs => if jsonWsB c then skipWs cs else c :: cs

/-- Decode one escape sequence after a backslash: the named escapes and
`\uXXXX` (with surrogate pairs combined into one scalar; unpaired surrogates
are rejected — the model uses unicode-scalar strings).  Returns the decoded
character and the remaining input. -/
def escDecode : List Char → Option (Char × List Char)
  | [] => none
  | e :: cs2 =>
    if e = 'u' then
      match cs2 with
      | h1 :: h2 :: h3 :: h4 :: rest =>
        match hexVal h1, hexVal h2, hexVal h3, hexVal h4 with
        | some a, some b, some d, some f =>
          let n := ((a * 16 + b) * 16 + d) * 16 + f
          if n < 55296 ∨ 57343 < n then some (Char.ofNat n, rest)
          else if n < 56320 then
            -- high surrogate: require a low surrogate escape right after
            match rest with
            | b1 :: b2 :: g1 :: g2 :: g3 :: g4 :: rest2 =>
              if b1 = '\\' ∧ b2 = 'u' then
                match hexVal g1, hexVal g2, hexVal g3, hexVal g4 with
                | some a2, some b2v, some d2, some f2 =>
                  let m := ((a2 * 16 + b2v) * 16 + d2) * 16 + f2
                  if 56320 ≤ m ∧ m ≤ 57343 then
                    some (Char.ofNat (65536 + (n - 55296) * 1024 + (m - 56320)), rest2)
                  else none
                | _, _, _, _ => none
              else none
            | _ => none
          else none
        | _, _, _, _ => none
      | _ => none
    else
      if e = '"' then some ('"', cs2)
      else if e = '\\' then some ('\\', cs2)
      else if e = '/' then some ('/', cs2)
      else if e = 'b' then some (Char.ofNat 8, cs2)
      else if e = 'f' then some (Char.ofNat 12, cs2)
      else if e = 'n' then some ('\n', cs2)
      else if e = 'r' then some ('\r', cs2)
      else if e = 't' then some ('\t', cs2)
      else none

/-- Parse the body of a JSON string literal after the opening quote, up to
and including the closing quote.  Raw control characters are rejected,
escapes are decoded via `escDecode`.  `fuel` bounds recursion; one unit per
input character plus one is always sufficient. -/
def parseStrBody : Nat → List Char → Option (List Char × List Char)
  | 0, _ => none
  | fuel + 1, cs =>
    match cs with
    | [] => none
    | c :: cs2 =>
      if c = '"' then some ([], cs2)
      else if c = '\\' then
        match escDecode cs2 with
        | some (d, rest) =>
          match parseStrBody fuel rest with
          | some (s, r) => some (d :: s, r)
          | none => none
        | none => none
      else if c.toNat < 32 then none
      else
        match parseStrBody fuel cs2 with
        | some (s, r) => some (c :: s, r)
        | none => none

/-- Lex the digits `0-9` greedily. -/
def lexDigits (cs : List Char) : List Char × List Char :=
  (cs.takeWhile Char.isDigit, cs.dropWhile Char.isDigit)

/-- Lex an optional JSON fraction part (`.` followed by one or more digits). -/
def lexFrac (cs : List Char) : Option (List Char × List Char) :=
  match cs with
  | '.' :: r =>
    let (ds, r2) := lexDigits r
    if ds.isEmpty then none else some ('.' :: ds, r2)
  | _ => some ([], cs)

/-- Lex an optional JSON exponent part (`e`/`E`, optional sign, digits). -/
def lexExp (cs : List Char) : Option (List Char × List Char) :=
  match cs with
  | 'e' :: '+' :: r =>
    let (ds, r2) := lexDigits r
    if ds.isEmpty then none else some ('e' :: '+' :: ds, r2)
  | 'e' :: '-' :: r =>
    let (ds, r2) := lexDigits r
    if ds.isEmpty then none else some ('e' :: '-' :: ds, r2)
  | 'e' :: r =>
    let (ds, r2) := lexDigits r
    if ds.isEmpty then none else some ('e' :: ds, r2)
  | 'E' :: '+' :: r =>
    let (ds, r2) := lexDigits r
    if ds.isEmpty then none else some ('E' :: '+' :: ds, r2)
  | 'E' :: '-' :: r =>
    let (ds, r2) := lexDigits r
    if ds.isEmpty then none else some ('E' :: '-' :: ds, r2)
  | 'E' :: r =>
    let (ds, r2) := lexDigits r
    if ds.isEmpty then none else some ('E' :: ds, r2)
  | _ => some ([], cs)

/-- Lex a JSON number literal (grammar of RFC 8259), returning its lexeme. -/
def lexNum (cs : List Char) : Option (List Char × List Char) :=
  let (sign, cs1) := match cs with
    | '-' :: r => (['-'], r)
    | _ => (([] : List Char), cs)
  match cs1 with
  | [] => none
  | d :: r =>
    if ¬ d.isDigit then none
    else
      let (intPart, cs2) :=
        if d = '0' then ([d], r)
        else let (ds, r2) := lexDigits r; (d :: ds, r2)
      match lexFrac cs2 with
      | none => none
      | some (fracPart, cs3) =>
        match lexExp cs3 with
        | none => none
        | some (expPart, cs4) => some (sign ++ intPart ++ fracPart ++ expPart, cs4)

mutual

/-- Parse one JSON value (leading whitespace skipped).  `fuel` bounds the
nesting of recursive calls; `jsonParse` supplies one unit of fuel per input
character plus one, which is always sufficient. -/
def parseJv : Nat → List Char → Option (Json × List Char)
  | 0, _ => none
  | fuel + 1, cs =>
    match skipWs cs with
    | [] => none
    | c :: r =>
      if c = '"' then
        match parseStrBody (r.length + 1) r with
        | some (s, rest) => some (.str (String.mk s), rest)
        | none => none
      else if c = '[' then
        match parseArrTail fuel r with
        | some (xs, rest) => some (.arr xs, rest)
        | none => none
      else if c = lbrace then
        match parseObjTail fuel r with
        | some (fs, rest) => some (.obj fs, rest)
        | none => none
      else if c = 't' then
        match r with
        | 'r' :: 'u' :: 'e' :: rest => some (.bool true, rest)
        | _ => none
      else if c = 'f' then
        match r with
        | 'a' :: 'l' :: 's' :: 'e' :: rest => some (.bool false, rest)
        | _ => none
      else if c = 'n' then
        match r with
        | 'u' :: 'l' :: 'l' :: rest => some (.null, rest)
        | _ => none
      else if c = '-' || c.isDigit then
        match lexNum (c :: r) with
        | some (lx, rest) => some (.num (String.mk lx), rest)
        | none => none
      else none

/-- Parse array contents after `[`. -/
def parseArrTail : Nat → List Char → Option (List Json × List Char)
  | 0, _ => none
  | fuel + 1, cs =>
    match skipWs cs with
    | [] => none
    | c :: r =>
      if c = ']' then some ([], r)
      else
        match parseJv fuel (c :: r) with
        | some (v, rest) =>
          match parseArrRest fuel rest with
          | some (vs, rest2) => some (v :: vs, rest2)
          | none => none
        | none => none

/-- Parse `, value` repetitions and the closing `]`. -/
def parseArrRest : Nat → List Char → Option (List Json × List Char)
  | 0, _ => none
  | fuel + 1, cs =>
    match skipWs cs with
    | [] => none
    | c :: r =>
      if c = ']' then some ([], r)
      else if c = ',' then
        match parseJv fuel r with
        | some (v, rest) =>
          match parseArrRest fuel rest with
          | some (vs, rest2) => some (v :: vs, rest2)
          | none => none
        | none => none
      else none

/-- Parse object contents after the opening brace. -/
def parseObjTail : Nat → List Char → Option (List (String × Json) × List Char)
  | 0, _ => none
  | fuel + 1, cs =>
    match skipWs cs with
    | [] => none
    | c :: r =>
      if c = rbrace then some ([], r)
      else if c = '"' then
        match parseStrBody (r.length + 1) r with
        | some (k, rest) =>
          match skipWs rest with
          | ':' :: rest2 =>
            match parseJv fuel rest2 with
            | some (v, rest3) =>
              match parseObjRest fuel rest3 with
              | some (fs, rest4) => some ((String.mk k, v) :: fs, rest4)
              | none => none
            | none => none
          | _ => none
        | none => none
      else none

/-- Parse `, "key": value` repetitions and the closing brace. -/
def parseObjRest : Nat → List Char → Option (List (String × Json) × List Char)
  | 0, _ => none
  | fuel + 1, cs =>
    match skipWs cs with
    | [] => none
    | c :: r =>
      if c = rbrace then some ([], r)
      else if c = ',' then
        match skipWs r with
        | '"' :: rest =>
          match parseStrBody (rest.length + 1) rest with
          | some (k, rest1) =>
            match skipWs rest1 with
            | ':' :: rest2 =>
              match parseJv fuel rest2 with
              | some (v, rest3) =>
                match parseObjRest fuel rest3 with
                | some (fs, rest4) => some ((String.mk k, v) :: fs, rest4)
                | none => none
              | none => none
            | _ => none
          | none => none
        | _ => none
      else none

end

/-- Model of `JSON.parse`: the whole input must be one JSON value surrounded
only by insignificant whitespace; `none` models the thrown `SyntaxError`. -/
def jsonParse (s : String) : Option Json :=
  match parseJv (s.data.length + 1) s.data with
  | some (v, rest) => if skipWs rest = [] then some v else none
  | none => none

/-! ## File-system model

A file system is a set of existing directories plus a map from paths to file
contents.  Paths are component lists (`path.join`/`path.dirname` become list
append/`dropLast`).  `fs.writeFileSync` fails with `ENOENT` when the parent
directory does not exist; `fs.mkdirSync(d, recursive)` creates `d` and all
its ancestors.  The empty path (a workspace-relative root) always exists. -/

/-- A file-system path as a list of components. -/
abbrev FsPath := List String

instance {ε α} [DecidableEq ε] [DecidableEq α] : DecidableEq (Except ε α) := fun x y =>
  match x, y with
  | .ok a, .ok b =>
    if h : a = b then isTrue (by rw [h]) else isFalse (fun he => h (Except.ok.inj he))
  | .error e, .error f =>
    if h : e = f then isTrue (by rw [h]) else isFalse (fun he => h (Except.error.inj he))
  | .ok _, .error _ => isFalse (fun he => Except.noConfusion he)
  | .error _, .ok _ => isFalse (fun he => Except.noConfusion he)

/-- Errors surfaced by the embedded helpers: the wrapped `JSON.parse` failure
thrown by `readLogFile`, a JavaScript `TypeError` from using a non-array where
an array is expected, and Node's `ENOENT` write failure. -/
inductive Err where
  | parseFailed : Err
  | typeErr : Err
  | enoent : Err
deriving DecidableEq

/-- Directories plus file contents. -/
structure FS where
  dirs : List FsPath
  files : List (FsPath × String)
deriving DecidableEq

/-- Content of the file at `p`, if any. -/
def FS.fileContent (fs : FS) (p : FsPath) : Option String :=
  (fs.files.find? (fun e => e.1 == p)).map (·.2)

/-- Existence of directory `d` (the empty path always exists). -/
def FS.dirExists (fs : FS) (d : FsPath) : Bool :=
  d.isEmpty || fs.dirs.contains d

/-- Replace (or create) the file at `p` with content `c`. -/
def FS.setFile (fs : FS) (p : FsPath) (c : String) : FS :=
  { fs with files := (p, c) :: fs.files.filter (fun e => !(e.1 == p)) }

/-- Model of `fs.writeFileSync(p, c)`: requires the parent directory. -/
def writeFileSync (fs : FS) (p : FsPath) (c : String) : Except Err FS :=
  if fs.dirExists p.dropLast then .ok (fs.setFile p c) else .error .enoent

/-- Model of `fs.mkdirSync(d, recursive: true)`: create `d` and ancestors. -/
def mkdirRecursive (fs : FS) (d : FsPath) : FS :=
  { fs with dirs := (List.range d.length).map (fun i => d.take (i + 1)) ++ fs.dirs }

/-! ## Log store (`src/utils/fsHelper.ts`) -/

/-- Model of `ensureDir`: `fs.mkdirSync(dirPath, recursive: true)`. -/
def ensureDir (fs : FS) (dirPath : FsPath) : FS := mkdirRecursive fs dirPath

/-- Model of `fileExists`: `fs.existsSync(filePath)`. -/
def fileExists (fs : FS) (filePath : FsPath) : Bool :=
  (fs.fileContent filePath).isSome

/-- Model of `readLogFile`: returns the empty array when the file is missing
or its trimmed content is empty, the `JSON.parse` result otherwise, and the
wrapped parse error when `JSON.parse` throws.  The result is the dynamic
parsed value: the `as LogEntry[]` cast in the source performs no runtime
validation, so no shape check happens here. -/
def readLogFile (fs : FS) (filePath : FsPath) : Except Err Json :=
  match fs.fileContent filePath with
  | none => .ok (.arr [])
  | some content =>
    let raw := jsTrim content
    if raw = "" then .ok (.arr [])
    else
      match jsonParse raw with
      | some v => .ok v
      | none => .error .parseFailed

/-- Model of `writeLogFile`: `fs.writeFileSync(filePath,
JSON.stringify(entries, null, 2))`.  Note: no `ensureDir` here — the write
fails if the parent directory does not exist. -/
def writeLogFile (fs : FS) (filePath : FsPath) (entries : List Json) : Except Err FS :=
  writeFileSync fs filePath (stringifyTop (.arr entries))

/-! ## Log records -/

/-- Capture-source tag (`src/types/logEntry.ts`). -/
inductive LogSource where
  | manual : LogSource
  | clipboard : LogSource
  | activeInputCapture : LogSource
deriving DecidableEq

/-- The JSON string for a capture-source tag. -/
def LogSource.toStr : LogSource → String
  | .manual => "manual"
  | .clipboard => "clipboard"
  | .activeInputCapture => "activeInputCapture"

/-- One activity log entry (`src/types/logEntry.ts`), all fields present. -/
structure LogEntry where
  timestamp : String
  description : String
  aiPrompt : String
  file : String
  method : String
  codeContextSnippetHash : String
  summary : String
  source : LogSource
deriving DecidableEq

/-- The JSON object for a log entry, fields in the insertion order used by
the command handlers' object literals. -/
def entryToJson (e : LogEntry) : Json :=
  .obj [("timestamp", .str e.timestamp), ("description", .str e.description),
        ("aiPrompt", .str e.aiPrompt), ("file", .str e.file),
        ("method", .str e.method),
        ("codeContextSnippetHash", .str e.codeContextSnippetHash),
        ("summary", .str e.summary), ("source", .str e.source.toStr)]

/-- Model of `appendLogEntry`: `ensureDir` on the parent, read, push, write.
Pushing onto a non-array read result would be a JavaScript `TypeError`. -/
def appendLogEntry (fs : FS) (filePath : FsPath) (entry : LogEntry) : Except Err FS :=
  let fs1 := ensureDir fs filePath.dropLast
  match readLogFile fs1 filePath with
  | .error e => .error e
  | .ok (.arr entries) => writeLogFile fs1 filePath (entries ++ [entryToJson entry])
  | .ok _ => .error .typeErr

/-- Model of `writeTimesheetFile`: `ensureDir` on the parent, then
`fs.writeFileSync(filePath, JSON.stringify(timesheet, null, 2))`.  The
argument is the dynamic value the caller obtained (unvalidated). -/
def writeTimesheetFile (fs : FS) (filePath : FsPath) (timesheet : Json) : Except Err FS :=
  writeFileSync (ensureDir fs filePath.dropLast) filePath (stringifyTop timesheet)

/-! ## Duplicate guard -/

/-- Property lookup on a JavaScript object built by `JSON.parse`: with
duplicate keys the later assignment wins. -/
def lookupLast (fields : List (String × Json)) (k : String) : Option Json :=
  match fields with
  | [] => none
  | (k', v) :: rest =>
    match lookupLast rest k with
    | some w => some w
    | none => if k' = k then some v else none

/-- JavaScript nullish test on a property-access result (`none` models
`undefined`). -/
def nullishOpt : Option Json → Bool
  | none => true
  | some .null => true
  | some _ => false

/-- JavaScript property access `v[k]`: `undefined` on primitives and arrays,
object lookup on objects, `TypeError` on `null` (and `undefined`) bases. -/
def jsProp (v : Json) (k : String) : Except Err (Option Json) :=
  match v with
  | .null => .error .typeErr
  | .obj fields => .ok (lookupLast fields k)
  | _ => .ok none

/-- The fixed duplicate window. -/
def TWO_MINUTES_MS : Int := 120000

/-- Model of `isDuplicateEntry`.  `getTime` is the oracle for
`new Date(x).getTime()` applied to the `timestamp` property value (`none`
models `NaN`, under which every comparison is false); `now` models
`Date.now()`.  A read result that is valid JSON but not an array is mapped to
a `TypeError` (in JavaScript `entries[NaN]` is `undefined` and
`undefined.aiPrompt` throws; exotic shapes such as objects carrying a numeric
`length` property or strings, where JavaScript can produce a boolean instead,
are outside the model and unreachable in every theorem below). -/
def isDuplicateEntry (getTime : Option Json → Option Int) (now : Int)
    (fs : FS) (filePath : FsPath) (aiPrompt : String) : Except Err Bool :=
  match readLogFile fs filePath with
  | .error e => .error e
  | .ok (.arr entries) =>
    match entries.getLast? with
    | none => .ok false
    | some lastV =>
      match jsProp lastV "aiPrompt" with
      | .error e => .error e
      | .ok p1 =>
        match (if nullishOpt p1 then jsProp lastV "description" else .ok p1) with
        | .error e => .error e
        | .ok p2 =>
          let lastPrompt : Json :=
            match p2 with
            | some w => if w = Json.null then .str "" else w
            | none => .str ""
          if lastPrompt ≠ Json.str aiPrompt then .ok false
          else
            match jsProp lastV "timestamp" with
            | .error e => .error e
            | .ok tsField =>
              match getTime tsField with
              | none => .ok false
              | some lastTime => .ok (decide (now - lastTime < TWO_MINUTES_MS))
  | .ok _ => .error .typeErr

/-! ## Fallback orchestrator and Gemini clients (`src/utils/geminiHelper.ts`)

The external service call `getModel(apiKey, modelName).generateContent(prompt)`
followed by `result.response.text()` is an oracle
`attempt : String → String → Except GenErr String` taking the prompt and the
model name (the API key is absorbed into the oracle).  The orchestrator is
embedded together with its observation trace: the ordered list of
`(model, outcome)` pairs, one entry per `generateContent` call, so that
"invoked exactly once" and "failure observed/logged exactly once" are
statable. -/

/-- An opaque failure value thrown by a model call (the tag mirrors the
JavaScript error message). -/
inductive GenErr where
  | mk (tag : String) : GenErr
deriving DecidableEq

/-- The fixed ordered candidate list `FALLBACK_MODELS`. -/
def FALLBACK_MODELS : List String :=
  ["gemini-3-flash-preview", "gemini-2.5-pro", "gemini-2.5-flash"]

/-- The `for` loop of `generateContentWithFallback` with its observation
trace.  The second argument accumulates `lastError`; on exhaustion the
source throws `lastError || new Error('All fallback models failed.')`. -/
def generateContentWithFallbackT (attempt : String → Except GenErr String) :
    List String → Option GenErr → List (String × Except GenErr String) × Except GenErr String
  | [], last => ([], .error (last.getD (.mk "All fallback models failed.")))
  | m :: rest, _ =>
    match attempt m with
    | .ok s => ([(m, .ok s)], .ok (jsTrim s))
    | .error e =>
      let (tr, r) := generateContentWithFallbackT attempt rest (some e)
      ((m, .error e) :: tr, r)

/-- Model of `generateContentWithFallback(apiKey, prompt, models)`: the
result of the loop (the successful response text is returned `.trim()`med). -/
def generateContentWithFallback (attempt : String → String → Except GenErr String)
    (prompt : String) (models : List String) : Except GenErr String :=
  (generateContentWithFallbackT (attempt prompt) models none).2

/-- The trace of model attempts made by `generateContentWithFallback`. -/
def generateContentWithFallbackTrace (attempt : String → String → Except GenErr String)
    (prompt : String) (models : List String) : List (String × Except GenErr String) :=
  (generateContentWithFallbackT (attempt prompt) models none).1

/-- The `contextInstruction` of `summarizeCode`; the ternary tests JavaScript
truthiness, so an empty task description selects the generic instruction. -/
def summarizeInstruction (taskDescription : Option String) : String :=
  match taskDescription with
  | some td =>
    if td = "" then
      "Summarize the following code snippet in 1-2 concise sentences, focusing on what it does and any notable patterns."
    else
      "The user is currently executing the following task: \"" ++ td ++
      "\". Summarize how this code snippet relates to or facilitates this task in 1-2 concise sentences. If the code seems unrelated to the task, just summarize what the code does."
  | none =>
    "Summarize the following code snippet in 1-2 concise sentences, focusing on what it does and any notable patterns."

/-- The prompt string built by `summarizeCode`. -/
def summarizePrompt (codeSnippet : String) (taskDescription : Option String) : String :=
  "You are a developer assistant. " ++ summarizeInstruction taskDescription ++
  " Do not include code in your reply.\n\n```\n" ++ codeSnippet ++ "\n```"

/-- Model of `summarizeCode`, returning the summary together with the trace
of model attempts (empty when the blank-context early return fires).  The
function is total: every failure of the orchestrator is converted to the
fixed placeholder. -/
def summarizeCode (attempt : String → String → Except GenErr String)
    (codeSnippet : String) (taskDescription : Option String) :
    String × List (String × Except GenErr String) :=
  if jsTrim codeSnippet = "" then ("(no code context available)", [])
  else
    let prompt := summarizePrompt codeSnippet taskDescription
    match generateContentWithFallbackT (attempt prompt) FALLBACK_MODELS none with
    | (tr, .ok s) => (s, tr)
    | (tr, .error _) => ("(AI summary unavailable)", tr)

/-- Model of `text.replace(/^```(?:json)?\s*/i, '')`: strip a leading fence,
an optional case-insensitive `json` tag, and following whitespace. -/
def stripFenceLead (cs : List Char) : List Char :=
  match cs with
  | c1 :: c2 :: c3 :: rest =>
    if c1 = btick ∧ c2 = btick ∧ c3 = btick then
      let rest2 := match rest with
        | a :: b :: c :: d :: r2 =>
          if a.toLower = 'j' ∧ b.toLower = 's' ∧ c.toLower = 'o' ∧ d.toLower = 'n'
          then r2 else rest
        | _ => rest
      rest2.dropWhile jsWsB
    else cs
  | _ => cs

/-- Model of `text.replace(/\s*```$/i, '')`: strip a trailing fence and the
whitespace before it, when present. -/
def stripFenceTrail (cs : List Char) : List Char :=
  let rv := cs.reverse.dropWhile jsWsB
  match rv with
  | c1 :: c2 :: c3 :: rest =>
    if c1 = btick ∧ c2 = btick ∧ c3 = btick then rest.reverse else cs
  | _ => cs

/-- The fence-stripping and trimming applied to the orchestrator's response
before `JSON.parse` in `generateTimesheetFromLogs`. -/
def processResponse (s : String) : String :=
  String.mk (trimChars (stripFenceTrail (stripFenceLead s.data)))

/-- The prompt template of `generateTimesheetFromLogs`. -/
def timesheetPrompt (logsText dateStr : String) : String :=
  "You are a project manager assistant. Given the following development activity log entries for "
  ++ dateStr ++
  ", produce a structured daily timesheet in strict JSON format.\n\nRules:\n1. Group entries into continuous task blocks. Each block should be under 1 hour.\n2. Merge repeated tasks (e.g. Task A → Task B → Task A merges into a single Task A block).\n3. Assign a descriptive category to each group (e.g. \"Coding: Auth Feature\", \"Debugging\", \"Code Review\").\n4. Infer start/end times from the timestamps of the log entries.\n5. Output ONLY valid JSON matching this exact schema — no markdown, no explanation:\n\n\x7b\n  \"date\": \"YYYY-MM-DD\",\n  \"tasks\": [\n    \x7b\n      \"category\": \"string\",\n      \"entries\": [\n        \x7b \"task\": \"string\", \"start\": \"HH:MM\", \"end\": \"HH:MM\" \x7d\n      ]\n    \x7d\n  ]\n\x7d\n\nLog entries:\n"
  ++ logsText

/-- Model of `generateTimesheetFromLogs`.  `entries` is the dynamic value the
caller passes as `LogEntry[]` (unvalidated at runtime).  The response text is
fence-stripped, trimmed and `JSON.parse`d — the `as Timesheet` cast performs
no shape validation, so any valid JSON value is returned as-is.  Both a
transport failure and a parse failure are wrapped into the single thrown
`Gemini failed to generate a valid timesheet` error by the `catch`. -/
def generateTimesheetFromLogs (attempt : String → String → Except GenErr String)
    (entries : Json) (dateStr : String) : Except GenErr Json :=
  let logsText := stringifyTop entries
  let prompt := timesheetPrompt logsText dateStr
  match (generateContentWithFallbackT (attempt prompt) FALLBACK_MODELS none).2 with
  | .ok text =>
    match jsonParse (processResponse text) with
    | some parsed => .ok parsed
    | none => .error (.mk "Gemini failed to generate a valid timesheet.")
  | .error _ => .error (.mk "Gemini failed to generate a valid timesheet.")

/-! ## The Generate Timesheet command (`src/commands/generateTimesheet.ts`)

The UI outcomes (`showErrorMessage`, `showWarningMessage`, save confirmation)
become a result tag; the API key is assumed present (key prompting is excluded
collaborator plumbing).  `logPath`/`tsPath` stand for the resolved
`YYYY-MM-DD.logs.json` / `YYYY-MM-DD.timesheet.json` paths. -/

/-- Outcome of one `generateTimesheet` invocation. -/
inductive CmdResult where
  | noLogFile : CmdResult
  | readFailed : CmdResult
  | emptyLog : CmdResult
  | genFailed : CmdResult
  | writeFailed : CmdResult
  | saved : CmdResult
deriving DecidableEq

/-- JavaScript `entries.length === 0` on the dynamic read result (non-arrays
compare unequal to `0`; an object carrying its own `length` property is
outside the model and unreachable below). -/
def jsLenEqZero (v : Json) : Bool :=
  match v with
  | .arr xs => xs.isEmpty
  | _ => false

/-- Model of the `generateTimesheet` command handler: existence check, read,
empty check, model call, then (only on success) the timesheet write.  Every
early exit leaves the file system unchanged. -/
def generateTimesheet (attempt : String → String → Except GenErr String)
    (fs : FS) (logPath tsPath : FsPath) (dateStr : String) : FS × CmdResult :=
  if ¬ fileExists fs logPath then (fs, .noLogFile)
  else
    match readLogFile fs logPath with
    | .error _ => (fs, .readFailed)
    | .ok entriesV =>
      if jsLenEqZero entriesV then (fs, .emptyLog)
      else
        match generateTimesheetFromLogs attempt entriesV dateStr with
        | .error _ => (fs, .genFailed)
        | .ok timesheet =>
          match writeTimesheetFile fs tsPath timesheet with
          | .ok fs2 => (fs2, .saved)
          | .error _ => (fs, .writeFailed)

/-! ## Shape decoders

The TypeScript code never validates parsed JSON against its declared types,
so these decoders do not occur in any embedded function.  They render the
spec's data shapes so that "is (not) a valid serialized sequence of Records"
and "matches the Timesheet shape" are statable. -/

/-- One timesheet interval (`src/types/timesheet.ts`); `endT` models the
`end` field (`end` is a Lean keyword). -/
structure TimesheetEntry where
  task : String
  start : String
  endT : String
deriving DecidableEq

/-- One category block (`src/types/timesheet.ts`). -/
structure TimesheetCategory where
  category : String
  entries : List TimesheetEntry
deriving DecidableEq

/-- The timesheet document (`src/types/timesheet.ts`). -/
structure Timesheet where
  date : String
  tasks : List TimesheetCategory
deriving DecidableEq

/-- Modelled from the spec: the `{task, start, end}` interval shape of §6;
no such decoder exists in the source (the `as Timesheet` cast is unchecked). -/
def decodeTimesheetEntry (v : Json) : Option TimesheetEntry :=
  match v with
  | .obj fields =>
    match lookupLast fields "task", lookupLast fields "start", lookupLast fields "end" with
    | some (.str t), some (.str s), some (.str e) => some ⟨t, s, e⟩
    | _, _, _ => none
  | _ => none

/-- Modelled from the spec: the `{category, entries}` block shape of §6. -/
def decodeTimesheetCategory (v : Json) : Option TimesheetCategory :=
  match v with
  | .obj fields =>
    match lookupLast fields "category", lookupLast fields "entries" with
    | some (.str c), some (.arr es) =>
      match es.mapM decodeTimesheetEntry with
      | some entries => some ⟨c, entries⟩
      | none => none
    | _, _ => none
  | _ => none

/-- Modelled from the spec: the `{date, tasks: [...]}` Timesheet shape of §6;
used only to state shape claims, never by the embedded code. -/
def decodeTimesheet (v : Json) : Option Timesheet :=
  match v with
  | .obj fields =>
    match lookupLast fields "date", lookupLast fields "tasks" with
    | some (.str d), some (.arr ts) =>
      match ts.mapM decodeTimesheetCategory with
      | some tasks => some ⟨d, tasks⟩
      | none => none
    | _, _ => none
  | _ => none

/-- Modelled from the spec: decode a capture-source tag (§3 closed set). -/
def decodeLogSource (v : Json) : Option LogSource :=
  match v with
  | .str "manual" => some .manual
  | .str "clipboard" => some .clipboard
  | .str "activeInputCapture" => some .activeInputCapture
  | _ => none

/-- Modelled from the spec: the Record object shape of §6 (all eight fields
present with string values); no such decoder exists in the source. -/
def decodeRecord (v : Json) : Option LogEntry :=
  match v with
  | .obj fields =>
    match lookupLast fields "timestamp", lookupLast fields "description",
          lookupLast fields "aiPrompt", lookupLast fields "file",
          lookupLast fields "method", lookupLast fields "codeContextSnippetHash",
          lookupLast fields "summary",
          (lookupLast fields "source").bind decodeLogSource with
    | some (.str ts), some (.str de), some (.str ai), some (.str fi),
      some (.str me), some (.str ha), some (.str su), some so =>
      some ⟨ts, de, ai, fi, me, ha, su, so⟩
    | _, _, _, _, _, _, _, _ => none
  | _ => none

/-- Modelled from the spec: a valid serialized sequence of Records is a JSON
array whose elements all decode as Records. -/
def decodeRecords (v : Json) : Option (List LogEntry) :=
  match v with
  | .arr xs => xs.mapM decodeRecord
  | _ => none

/-- Modelled from the spec: whether a content string is a valid serialized
sequence of Records (§4.2). -/
def validRecordSeq (c : String) : Bool :=
  match jsonParse c with
  | some v => (decodeRecords v).isSome
  | none => false

/-! ## Round-trip correctness of the JSON layer

`JSON.parse` recovers every value serialized by `JSON.stringify(v, null, 2)`
when the value is built from strings, arrays and objects — exactly the values
the log store writes.  The proof follows the printer structurally: a lemma
per printer production, each stated over an arbitrary remaining input. -/

theorem skipWs_cons_not {c : Char} (h : jsonWsB c = false) (l : List Char) :
    skipWs (c :: l) = c :: l := by
  simp [skipWs, h]

theorem skipWs_cons_ws {c : Char} (h : jsonWsB c = true) (l : List Char) :
    skipWs (c :: l) = skipWs l := by
  simp [skipWs, h]

theorem skipWs_replicate_space (n : Nat) (l : List Char) :
    skipWs (List.replicate n ' ' ++ l) = skipWs l := by
  induction n with
  | zero => rfl
  | succ k ih =>
    rw [List.replicate_succ, List.cons_append, skipWs_cons_ws (by decide)]
    exact ih

theorem skipWs_indent (k : Nat) (l : List Char) :
    skipWs (indentChars k ++ l) = skipWs l :=
  skipWs_replicate_space (2 * k) l

theorem skipWs_nl_indent (k : Nat) (l : List Char) :
    skipWs ('\n' :: (indentChars k ++ l)) = skipWs l := by
  rw [skipWs_cons_ws (by decide), skipWs_indent]

theorem hexVal_hexDigitChar : ∀ n, n < 16 → hexVal (hexDigitChar n) = some n := by decide

theorem escDecode_u00 (t : Nat) (ht : t < 32) (rest : List Char) :
    escDecode ('u' :: '0' :: '0' :: hexDigitChar (t / 16) :: hexDigitChar (t % 16) :: rest) =
      some (Char.ofNat t, rest) := by
  have h16a : t / 16 < 16 := by omega
  have h16b : t % 16 < 16 := by omega
  have hcond : t / 16 * 16 + t % 16 = t := by omega
  have hlt : t < 55296 := by omega
  simp [escDecode, hexVal_hexDigitChar _ h16a, hexVal_hexDigitChar _ h16b,
    show hexVal '0' = some 0 by decide, hcond, hlt]

theorem parseStrBody_quote (f : Nat) (l : List Char) :
    parseStrBody (f + 1) ('"' :: l) = some ([], l) := by
  rw [parseStrBody]
  simp

theorem parseStrBody_esc (f : Nat) (l : List Char) (d : Char) (tail s r : List Char)
    (hesc : escDecode l = some (d, tail)) (hrec : parseStrBody f tail = some (s, r)) :
    parseStrBody (f + 1) ('\\' :: l) = some (d :: s, r) := by
  rw [parseStrBody]
  simp [hesc, hrec]

theorem parseStrBody_plain (f : Nat) (c : Char) (l s r : List Char)
    (h1 : ¬ c = '"') (h2 : ¬ c = '\\') (h8 : ¬ c.toNat < 32)
    (hrec : parseStrBody f l = some (s, r)) :
    parseStrBody (f + 1) (c :: l) = some (c :: s, r) := by
  rw [parseStrBody]
  simp [h1, h2, h8, hrec]

theorem parseStrBody_escapes (cs : List Char) :
    ∀ fuel rest, (escapeChars cs).length < fuel →
      parseStrBody fuel (escapeChars cs ++ '"' :: rest) = some (cs, rest) := by
  induction cs with
  | nil =>
    intro fuel rest hf
    match fuel, hf with
    | f + 1, _ => exact parseStrBody_quote f rest
  | cons c cs ih =>
    intro fuel rest hf
    rw [escapeChars] at hf ⊢
    rw [List.append_assoc]
    rw [List.length_append] at hf
    have hlen1 : 1 ≤ (escapeChar c).length := by
      unfold escapeChar
      repeat' split
      all_goals simp
    match fuel, hf with
    | f + 1, hf =>
      have hrec : (escapeChars cs).length < f := by omega
      have ihr := ih f rest hrec
      by_cases h1 : c = '"'
      · subst h1
        rw [show escapeChar '"' = ['\\', '"'] from rfl]
        simp only [List.cons_append, List.nil_append]
        exact parseStrBody_esc f _ _ _ _ _ (by simp [escDecode]) ihr
      · by_cases h2 : c = '\\'
        · subst h2
          rw [show escapeChar '\\' = ['\\', '\\'] from rfl]
          simp only [List.cons_append, List.nil_append]
          exact parseStrBody_esc f _ _ _ _ _ (by simp [escDecode]) ihr
        · by_cases h3 : c = Char.ofNat 8
          · subst h3
            rw [show escapeChar (Char.ofNat 8) = ['\\', 'b'] from rfl]
            simp only [List.cons_append, List.nil_append]
            exact parseStrBody_esc f _ _ _ _ _ (by simp [escDecode]) ihr
          · by_cases h4 : c = Char.ofNat 12
            · subst h4
              rw [show escapeChar (Char.ofNat 12) = ['\\', 'f'] from rfl]
              simp only [List.cons_append, List.nil_append]
              exact parseStrBody_esc f _ _ _ _ _ (by simp [escDecode]) ihr
            · by_cases h5 : c = '\n'
              · subst h5
                rw [show escapeChar '\n' = ['\\', 'n'] from rfl]
                simp only [List.cons_append, List.nil_append]
                exact parseStrBody_esc f _ _ _ _ _ (by simp [escDecode]) ihr
              · by_cases h6 : c = '\r'
                · subst h6
                  rw [show escapeChar '\r' = ['\\', 'r'] from rfl]
                  simp only [List.cons_append, List.nil_append]
                  exact parseStrBody_esc f _ _ _ _ _ (by simp [escDecode]) ihr
                · by_cases h7 : c = '\t'
                  · subst h7
                    rw [show escapeChar '\t' = ['\\', 't'] from rfl]
                    simp only [List.cons_append, List.nil_append]
                    exact parseStrBody_esc f _ _ _ _ _ (by simp [escDecode]) ihr
                  · by_cases h8 : c.toNat < 32
                    · rw [show escapeChar c = ['\\', 'u', '0', '0',
                          hexDigitChar (c.toNat / 16), hexDigitChar (c.toNat % 16)] by
                        unfold escapeChar
                        rw [if_neg h1, if_neg h2, if_neg h3, if_neg h4, if_neg h5, if_neg h6,
                          if_neg h7, if_pos h8]]
                      simp only [List.cons_append, List.nil_append]
                      have := parseStrBody_esc f _ _ _ _ _
                        (escDecode_u00 c.toNat h8 (escapeChars cs ++ '"' :: rest)) ihr
                      rwa [Char.ofNat_toNat] at this
                    · rw [show escapeChar c = [c] by
                        unfold escapeChar
                        rw [if_neg h1, if_neg h2, if_neg h3, if_neg h4, if_neg h5, if_neg h6,
                          if_neg h7, if_neg h8]]
                      simp only [List.cons_append, List.nil_append]
                      exact parseStrBody_plain f c _ _ _ h1 h2 h8 ihr

/-- The JSON fragment the log store writes: strings, arrays, objects. -/
inductive SJson : Json → Prop
  | str (s : String) : SJson (.str s)
  | arr (xs : List Json) (h : ∀ x ∈ xs, SJson x) : SJson (.arr xs)
  | obj (fs : List (String × Json)) (h : ∀ kv ∈ fs, SJson kv.2) : SJson (.obj fs)

theorem printAt_head (i : Nat) (v : Json) (h : SJson v) :
    ∃ c z, printAt i v = c :: z ∧ (c = '"' ∨ c = '[' ∨ c = lbrace) := by
  cases h with
  | str s =>
    exact ⟨'"', escapeChars s.data ++ ['"'], by simp [printAt, quoteStr], Or.inl rfl⟩
  | arr xs _ => exact ⟨'[', printArrTail i xs, by simp [printAt], Or.inr (Or.inl rfl)⟩
  | obj fs _ => exact ⟨lbrace, printObjTail i fs, by simp [printAt], Or.inr (Or.inr rfl)⟩

theorem skipWs_printAt (i : Nat) (v : Json) (h : SJson v) (l : List Char) :
    skipWs (printAt i v ++ l) = printAt i v ++ l := by
  obtain ⟨c, z, he, hc⟩ := printAt_head i v h
  rw [he, List.cons_append]
  apply skipWs_cons_not
  rcases hc with h | h | h <;> subst h <;> decide

theorem printAt_length_pos (i : Nat) (v : Json) (h : SJson v) :
    1 ≤ (printAt i v).length := by
  obtain ⟨c, z, he, _⟩ := printAt_head i v h
  simp [he]

/-- Round-trip property of a single value, quantified over the nesting level,
the fuel and the rest of the input. -/
def PrintParses (v : Json) : Prop :=
  ∀ i fuel rest, (printAt i v).length < fuel →
    parseJv fuel (printAt i v ++ rest) = some (v, rest)

theorem parseJv_congr {a b : List Char} (fuel : Nat) (h : skipWs a = skipWs b) :
    parseJv fuel a = parseJv fuel b := by
  cases fuel with
  | zero => rfl
  | succ f => rw [parseJv, parseJv, h]

theorem parseArrRest_congr {l1 l2 : List Char} (fuel : Nat) (h : skipWs l1 = skipWs l2) :
    parseArrRest fuel l1 = parseArrRest fuel l2 := by
  cases fuel with
  | zero => rfl
  | succ f => rw [parseArrRest, parseArrRest, h]

theorem parseObjRest_congr {l1 l2 : List Char} (fuel : Nat) (h : skipWs l1 = skipWs l2) :
    parseObjRest fuel l1 = parseObjRest fuel l2 := by
  cases fuel with
  | zero => rfl
  | succ f => rw [parseObjRest, parseObjRest, h]

theorem parseArrRest_sep (ys : List Json) (hS : ∀ y ∈ ys, SJson y)
    (hP : ∀ y ∈ ys, PrintParses y) :
    ∀ i fuel rest, (printArrSep i ys).length < fuel →
      parseArrRest fuel (printArrSep i ys ++ rest) = some (ys, rest) := by
  induction ys with
  | nil =>
    intro i fuel rest hf
    match fuel, hf with
    | f + 1, hf =>
      rw [printArrSep]
      rw [parseArrRest]
      rw [List.cons_append, List.append_assoc, List.singleton_append,
        skipWs_nl_indent, skipWs_cons_not (by decide)]
      simp
  | cons y ys ih =>
    intro i fuel rest hf
    have hSy : SJson y := hS y (by simp)
    have hPy : PrintParses y := hP y (by simp)
    have hSys : ∀ x ∈ ys, SJson x := fun x hx => hS x (by simp [hx])
    have hPys : ∀ x ∈ ys, PrintParses x := fun x hx => hP x (by simp [hx])
    rw [printArrSep] at hf ⊢
    simp only [List.length_cons, List.length_append] at hf
    match fuel, hf with
    | f + 1, hf =>
      have hyl : (printAt (i + 1) y).length < f := by omega
      have hsl : (printArrSep i ys).length < f := by omega
      rw [List.cons_append, List.cons_append, List.append_assoc, List.append_assoc]
      rw [parseArrRest]
      rw [skipWs_cons_not (by decide)]
      simp only [reduceIte]
      rw [parseJv_congr f (b := printAt (i + 1) y ++ (printArrSep i ys ++ rest))
        (by rw [skipWs_nl_indent, skipWs_printAt _ _ hSy])]
      rw [hPy (i + 1) f _ hyl]
      rw [if_neg (by decide : ¬ ((',' : Char) = ']'))]
      show (match parseArrRest f (printArrSep i ys ++ rest) with
        | some (vs, rest2) => some (y :: vs, rest2)
        | none => none) = some (y :: ys, rest)
      rw [ih hSys hPys i f rest hsl]

theorem parseArrTail_print (ys : List Json) (hS : ∀ y ∈ ys, SJson y)
    (hP : ∀ y ∈ ys, PrintParses y) :
    ∀ i fuel rest, (printArrTail i ys).length < fuel →
      parseArrTail fuel (printArrTail i ys ++ rest) = some (ys, rest) := by
  intro i fuel rest hf
  cases ys with
  | nil =>
    match fuel, hf with
    | f + 1, _ =>
      rw [printArrTail]
      rw [parseArrTail]
      rw [List.singleton_append, skipWs_cons_not (by decide)]
      simp
  | cons y ys =>
    have hSy : SJson y := hS y (by simp)
    have hPy : PrintParses y := hP y (by simp)
    have hSys : ∀ x ∈ ys, SJson x := fun x hx => hS x (by simp [hx])
    have hPys : ∀ x ∈ ys, PrintParses x := fun x hx => hP x (by simp [hx])
    rw [printArrTail] at hf ⊢
    simp only [List.length_cons, List.length_append] at hf
    match fuel, hf with
    | f + 1, hf =>
      have hyl : (printAt (i + 1) y).length < f := by omega
      have hsl : (printArrSep i ys).length < f := by omega
      rw [List.cons_append, List.append_assoc, List.append_assoc]
      rw [parseArrTail]
      rw [skipWs_nl_indent, skipWs_printAt _ _ hSy]
      obtain ⟨c, z, he, hc⟩ := printAt_head (i + 1) y hSy
      rw [he, List.cons_append]
      simp only [reduceIte]
      rw [if_neg (show ¬ c = ']' by rcases hc with h | h | h <;> subst h <;> decide)]
      rw [← List.cons_append, ← he]
      rw [hPy (i + 1) f _ hyl]
      show (match parseArrRest f (printArrSep i ys ++ rest) with
        | some (vs, rest2) => some (y :: vs, rest2)
        | none => none) = some (y :: ys, rest)
      rw [parseArrRest_sep ys hSys hPys i f rest hsl]

theorem quoteStr_length (k : String) :
    (quoteStr k).length = (escapeChars k.data).length + 2 := by
  simp [quoteStr]

theorem parseStrBody_escapes_app (k : String) (x : List Char) :
    parseStrBody ((escapeChars k.data ++ ('"' :: x)).length + 1)
      (escapeChars k.data ++ '"' :: x) = some (k.data, x) := by
  apply parseStrBody_escapes
  simp only [List.length_append, List.length_cons]
  omega

theorem parseObjRest_sep (fs : List (String × Json)) (hS : ∀ kv ∈ fs, SJson kv.2)
    (hP : ∀ kv ∈ fs, PrintParses kv.2) :
    ∀ i fuel rest, (printObjSep i fs).length < fuel →
      parseObjRest fuel (printObjSep i fs ++ rest) = some (fs, rest) := by
  induction fs with
  | nil =>
    intro i fuel rest hf
    match fuel, hf with
    | f + 1, hf =>
      rw [printObjSep]
      rw [parseObjRest]
      rw [List.cons_append, List.append_assoc, List.singleton_append,
        skipWs_nl_indent, skipWs_cons_not (by decide)]
      simp
  | cons kv fs ih =>
    obtain ⟨k, v⟩ := kv
    intro i fuel rest hf
    have hSv : SJson v := hS (k, v) (by simp)
    have hPv : PrintParses v := hP (k, v) (by simp)
    have hSfs : ∀ x ∈ fs, SJson x.2 := fun x hx => hS x (by simp [hx])
    have hPfs : ∀ x ∈ fs, PrintParses x.2 := fun x hx => hP x (by simp [hx])
    rw [printObjSep] at hf ⊢
    simp only [List.length_cons, List.length_append, quoteStr_length] at hf
    match fuel, hf with
    | f + 1, hf =>
      have hyl : (printAt (i + 1) v).length < f := by omega
      have hsl : (printObjSep i fs).length < f := by omega
      simp only [quoteStr, List.cons_append, List.append_assoc, List.singleton_append]
      rw [parseObjRest]
      rw [skipWs_cons_not (by decide)]
      simp only [reduceIte]
      rw [if_neg (by decide : ¬ ((',' : Char) = rbrace))]
      rw [skipWs_nl_indent, skipWs_cons_not (by decide)]
      simp only [reduceIte]
      rw [show ∀ x : List Char, escapeChars k.data ++ '"' :: x = escapeChars k.data ++ ('"' :: x)
        from fun _ => rfl]
      rw [parseStrBody_escapes_app k]
      simp only [List.nil_append]
      show (match parseJv f (' ' :: (printAt (i + 1) v ++ (printObjSep i fs ++ rest))) with
        | some (w, rest3) =>
          match parseObjRest f rest3 with
          | some (gs, rest4) => some ((String.mk k.data, w) :: gs, rest4)
          | none => none
        | none => none) = some ((k, v) :: fs, rest)
      rw [parseJv_congr f (b := printAt (i + 1) v ++ (printObjSep i fs ++ rest))
        (by rw [skipWs_cons_ws (by decide), skipWs_printAt _ _ hSv])]
      rw [hPv (i + 1) f _ hyl]
      show (match parseObjRest f (printObjSep i fs ++ rest) with
        | some (gs, rest4) => some ((String.mk k.data, v) :: gs, rest4)
        | none => none) = some ((k, v) :: fs, rest)
      rw [ih hSfs hPfs i f rest hsl]

theorem parseObjTail_print (fs : List (String × Json)) (hS : ∀ kv ∈ fs, SJson kv.2)
    (hP : ∀ kv ∈ fs, PrintParses kv.2) :
    ∀ i fuel rest, (printObjTail i fs).length < fuel →
      parseObjTail fuel (printObjTail i fs ++ rest) = some (fs, rest) := by
  intro i fuel rest hf
  cases fs with
  | nil =>
    match fuel, hf with
    | f + 1, _ =>
      rw [printObjTail]
      rw [parseObjTail]
      rw [List.singleton_append, skipWs_cons_not (by decide)]
      simp
  | cons kv fs =>
    obtain ⟨k, v⟩ := kv
    have hSv : SJson v := hS (k, v) (by simp)
    have hPv : PrintParses v := hP (k, v) (by simp)
    have hSfs : ∀ x ∈ fs, SJson x.2 := fun x hx => hS x (by simp [hx])
    have hPfs : ∀ x ∈ fs, PrintParses x.2 := fun x hx => hP x (by simp [hx])
    rw [printObjTail] at hf ⊢
    simp only [List.length_cons, List.length_append, quoteStr_length] at hf
    match fuel, hf with
    | f + 1, hf =>
      have hyl : (printAt (i + 1) v).length < f := by omega
      have hsl : (printObjSep i fs).length < f := by omega
      simp only [quoteStr, List.cons_append, List.append_assoc, List.singleton_append]
      rw [parseObjTail]
      rw [skipWs_nl_indent, skipWs_cons_not (by decide)]
      simp only [reduceIte]
      rw [if_neg (by decide : ¬ (('"' : Char) = rbrace))]
      rw [show ∀ x : List Char, escapeChars k.data ++ '"' :: x = escapeChars k.data ++ ('"' :: x)
        from fun _ => rfl]
      rw [parseStrBody_escapes_app k]
      simp only [List.nil_append]
      show (match parseJv f (' ' :: (printAt (i + 1) v ++ (printObjSep i fs ++ rest))) with
        | some (w, rest3) =>
          match parseObjRest f rest3 with
          | some (gs, rest4) => some ((String.mk k.data, w) :: gs, rest4)
          | none => none
        | none => none) = some ((k, v) :: fs, rest)
      rw [parseJv_congr f (b := printAt (i + 1) v ++ (printObjSep i fs ++ rest))
        (by rw [skipWs_cons_ws (by decide), skipWs_printAt _ _ hSv])]
      rw [hPv (i + 1) f _ hyl]
      show (match parseObjRest f (printObjSep i fs ++ rest) with
        | some (gs, rest4) => some ((String.mk k.data, v) :: gs, rest4)
        | none => none) = some ((k, v) :: fs, rest)
      rw [parseObjRest_sep fs hSfs hPfs i f rest hsl]

theorem printParses_of_SJson (v : Json) (h : SJson v) : PrintParses v := by
  induction h with
  | str s =>
    intro i fuel rest hf
    match fuel, hf with
    | f + 1, hf =>
      rw [show printAt i (.str s) = '"' :: (escapeChars s.data ++ ['"']) from rfl]
      rw [List.cons_append]
      rw [parseJv]
      rw [skipWs_cons_not (by decide)]
      show (match parseStrBody (((escapeChars s.data ++ ['"']) ++ rest).length + 1)
          ((escapeChars s.data ++ ['"']) ++ rest) with
        | some (t, rest2) => some (Json.str (String.mk t), rest2)
        | none => none) = some (.str s, rest)
      rw [show (escapeChars s.data ++ ['"']) ++ rest = escapeChars s.data ++ ('"' :: rest) by
        rw [List.append_assoc, List.singleton_append]]
      rw [parseStrBody_escapes_app s]
  | arr xs hmem ihm =>
    intro i fuel rest hf
    rw [show printAt i (.arr xs) = '[' :: printArrTail i xs from rfl] at hf ⊢
    simp only [List.length_cons] at hf
    match fuel, hf with
    | f + 1, hf =>
      have htl : (printArrTail i xs).length < f := by omega
      rw [List.cons_append]
      rw [parseJv]
      rw [skipWs_cons_not (by decide)]
      show (match parseArrTail f (printArrTail i xs ++ rest) with
        | some (vs, rest2) => some (Json.arr vs, rest2)
        | none => none) = some (.arr xs, rest)
      rw [parseArrTail_print xs hmem ihm i f rest htl]
  | obj fs hmem ihm =>
    intro i fuel rest hf
    rw [show printAt i (.obj fs) = lbrace :: printObjTail i fs from rfl] at hf ⊢
    simp only [List.length_cons] at hf
    match fuel, hf with
    | f + 1, hf =>
      have htl : (printObjTail i fs).length < f := by omega
      rw [List.cons_append]
      rw [parseJv]
      rw [skipWs_cons_not (by decide)]
      show (match parseObjTail f (printObjTail i fs ++ rest) with
        | some (gs, rest2) => some (Json.obj gs, rest2)
        | none => none) = some (.obj fs, rest)
      rw [parseObjTail_print fs hmem ihm i f rest htl]

/-- `JSON.parse` recovers every string/array/object value that
`JSON.stringify(v, null, 2)` serialized. -/
theorem jsonParse_stringifyTop (v : Json) (h : SJson v) :
    jsonParse (stringifyTop v) = some v := by
  have hp := printParses_of_SJson v h 0 ((printAt 0 v).length + 1) [] (by omega)
  rw [List.append_nil] at hp
  show (match parseJv ((stringifyTop v).data.length + 1) (stringifyTop v).data with
    | some (w, rest) => if skipWs rest = [] then some w else none
    | none => none) = some v
  rw [show (stringifyTop v).data = printAt 0 v from rfl, hp]
  simp [skipWs]

theorem printArrSep_last (i : Nat) (ys : List Json) :
    ∃ z, printArrSep i ys = z ++ [']'] := by
  induction ys with
  | nil => exact ⟨'\n' :: indentChars i, by simp [printArrSep]⟩
  | cons y ys ih =>
    obtain ⟨z, hz⟩ := ih
    exact ⟨',' :: '\n' :: (indentChars (i + 1) ++ printAt (i + 1) y ++ z),
      by simp [printArrSep, hz]⟩

theorem printObjSep_last (i : Nat) (fs : List (String × Json)) :
    ∃ z, printObjSep i fs = z ++ [rbrace] := by
  induction fs with
  | nil => exact ⟨'\n' :: indentChars i, by simp [printObjSep]⟩
  | cons kv fs ih =>
    obtain ⟨k, v⟩ := kv
    obtain ⟨z, hz⟩ := ih
    exact ⟨',' :: '\n' :: (indentChars (i + 1) ++ quoteStr k ++ ':' :: ' ' ::
      (printAt (i + 1) v ++ z)), by simp [printObjSep, hz]⟩

theorem printAt_last (i : Nat) (v : Json) (h : SJson v) :
    ∃ z c, printAt i v = z ++ [c] ∧ jsWsB c = false := by
  cases h with
  | str s =>
    exact ⟨'"' :: escapeChars s.data, '"', by simp [printAt, quoteStr], by decide⟩
  | arr xs _ =>
    cases xs with
    | nil => exact ⟨['['], ']', by simp [printAt, printArrTail], by decide⟩
    | cons y ys =>
      obtain ⟨z, hz⟩ := printArrSep_last i ys
      exact ⟨'[' :: '\n' :: (indentChars (i + 1) ++ printAt (i + 1) y ++ z), ']',
        by simp [printAt, printArrTail, hz], by decide⟩
  | obj fs _ =>
    cases fs with
    | nil => exact ⟨[lbrace], rbrace, by simp [printAt, printObjTail], by decide⟩
    | cons kv gs =>
      obtain ⟨k, v⟩ := kv
      obtain ⟨z, hz⟩ := printObjSep_last i gs
      exact ⟨lbrace :: '\n' :: (indentChars (i + 1) ++ quoteStr k ++ ':' :: ' ' ::
        (printAt (i + 1) v ++ z)), rbrace,
        by simp [printAt, printObjTail, hz], by decide⟩

theorem trimChars_noop {l : List Char} {c1 c2 : Char} {z1 z2 : List Char}
    (h1 : l = c1 :: z1) (hc1 : jsWsB c1 = false)
    (h2 : l = z2 ++ [c2]) (hc2 : jsWsB c2 = false) : trimChars l = l := by
  have hd : l.dropWhile jsWsB = l := by
    rw [h1, List.dropWhile_cons, if_neg (by simp [hc1])]
  have hrev : l.reverse.dropWhile jsWsB = l.reverse := by
    rw [h2, show (z2 ++ [c2]).reverse = c2 :: z2.reverse by simp, List.dropWhile_cons,
      if_neg (by simp [hc2]), show c2 :: z2.reverse = (z2 ++ [c2]).reverse by simp, ← h2]
  unfold trimChars
  rw [hd, hrev, List.reverse_reverse]

/-- The serialized form starts and ends with non-whitespace, so the
`content.trim()` in `readLogFile` leaves it unchanged. -/
theorem jsTrim_stringifyTop (v : Json) (h : SJson v) :
    jsTrim (stringifyTop v) = stringifyTop v := by
  obtain ⟨c, z, hhead, hc⟩ := printAt_head 0 v h
  obtain ⟨z2, c2, hlast, hc2⟩ := printAt_last 0 v h
  have hcw : jsWsB c = false := by rcases hc with h' | h' | h' <;> subst h' <;> decide
  show String.mk (trimChars (printAt 0 v)) = String.mk (printAt 0 v)
  rw [trimChars_noop hhead hcw hlast hc2]

theorem stringifyTop_ne_empty (v : Json) (h : SJson v) : ¬ stringifyTop v = "" := by
  obtain ⟨c, z, hhead, _⟩ := printAt_head 0 v h
  intro he
  have hd := congrArg String.data he
  rw [show (stringifyTop v).data = printAt 0 v from rfl, hhead] at hd
  simp at hd

/-! ## Log-store lemmas -/

theorem fileContent_setFile (fs : FS) (p : FsPath) (c : String) :
    (fs.setFile p c).fileContent p = some c := by
  simp [FS.setFile, FS.fileContent]

theorem fileContent_ensureDir (fs : FS) (d : FsPath) (p : FsPath) :
    (ensureDir fs d).fileContent p = fs.fileContent p := rfl

theorem dirExists_ensureDir (fs : FS) (d : FsPath) :
    (ensureDir fs d).dirExists d = true := by
  cases hd : d with
  | nil => simp [FS.dirExists]
  | cons a t =>
    rw [← hd]
    have hne : d.length ≠ 0 := by simp [hd]
    have hmem : d ∈ (ensureDir fs d).dirs := by
      simp only [ensureDir, mkdirRecursive, List.mem_append, List.mem_map, List.mem_range]
      left
      exact ⟨d.length - 1, by omega,
        by rw [show d.length - 1 + 1 = d.length by omega, List.take_length]⟩
    simp [FS.dirExists]
    exact Or.inr hmem

/-- Write-then-read round trip of the log store (parent directory present;
the written values are in the serialized fragment, as every `LogEntry` is). -/
theorem readLogFile_writeLogFile (fs : FS) (p : FsPath) (entries : List Json)
    (hdir : fs.dirExists p.dropLast = true) (hS : ∀ e ∈ entries, SJson e) :
    writeLogFile fs p entries = .ok (fs.setFile p (stringifyTop (.arr entries))) ∧
      readLogFile (fs.setFile p (stringifyTop (.arr entries))) p = .ok (.arr entries) := by
  have hSa : SJson (.arr entries) := SJson.arr entries hS
  constructor
  · rw [writeLogFile, writeFileSync, if_pos hdir]
  · rw [readLogFile, fileContent_setFile]
    show (let raw := jsTrim (stringifyTop (.arr entries));
      if raw = "" then Except.ok (Json.arr [])
      else match jsonParse raw with
        | some v => Except.ok v
        | none => Except.error Err.parseFailed) = Except.ok (.arr entries)
    rw [jsTrim_stringifyTop _ hSa]
    show (if stringifyTop (.arr entries) = "" then Except.ok (Json.arr [])
      else match jsonParse (stringifyTop (.arr entries)) with
        | some v => Except.ok v
        | none => Except.error Err.parseFailed) = Except.ok (.arr entries)
    rw [if_neg (stringifyTop_ne_empty _ hSa), jsonParse_stringifyTop _ hSa]

theorem SJson_entryToJson (e : LogEntry) : SJson (entryToJson e) := by
  apply SJson.obj
  intro kv hkv
  simp [entryToJson] at hkv
  rcases hkv with h | h | h | h | h | h | h | h <;> rw [h] <;> exact SJson.str _

/-! ## Orchestrator lemmas -/

theorem fallbackT_split (attempt : String → Except GenErr String) (pre : List String)
    (m : String) (post : List String) (out : String)
    (hpre : ∀ x ∈ pre, ∃ e, attempt x = .error e) (hm : attempt m = .ok out) :
    ∀ last, generateContentWithFallbackT attempt (pre ++ m :: post) last =
      (pre.map (fun x => (x, attempt x)) ++ [(m, .ok out)], .ok (jsTrim out)) := by
  induction pre with
  | nil =>
    intro last
    rw [List.nil_append, generateContentWithFallbackT, hm]
    simp
  | cons a pre ih =>
    intro last
    obtain ⟨e, he⟩ := hpre a (by simp)
    rw [List.cons_append, generateContentWithFallbackT, he]
    show (match generateContentWithFallbackT attempt (pre ++ m :: post) (some e) with
      | (tr, r) => ((a, Except.error e) :: tr, r)) =
      ((a :: pre).map (fun x => (x, attempt x)) ++ [(m, Except.ok out)], Except.ok (jsTrim out))
    rw [ih (fun x hx => hpre x (by simp [hx])) (some e)]
    simp [he]

theorem fallbackT_all_fail (attempt : String → Except GenErr String) (models : List String)
    (hf : ∀ x ∈ models, ∃ e, attempt x = .error e) :
    ∀ last, (generateContentWithFallbackT attempt models last).1 =
        models.map (fun x => (x, attempt x)) ∧
      (∀ lm e, models.getLast? = some lm → attempt lm = .error e →
        (generateContentWithFallbackT attempt models last).2 = .error e) := by
  induction models with
  | nil =>
    intro last
    refine ⟨by simp [generateContentWithFallbackT], ?_⟩
    intro lm e h
    simp at h
  | cons a ms ih =>
    intro last
    obtain ⟨e0, he0⟩ := hf a (by simp)
    have ihm := ih (fun x hx => hf x (by simp [hx])) (some e0)
    constructor
    · rw [generateContentWithFallbackT, he0]
      simp only [List.map_cons, he0]
      rw [show (generateContentWithFallbackT attempt ms (some e0)).1 =
        ms.map (fun x => (x, attempt x)) from ihm.1]
    · intro lm e hlast hae
      cases ms with
      | nil =>
        have hla : lm = a := by
          simp at hlast
          exact hlast.symm
        subst hla
        have heq : e = e0 := by
          rw [he0] at hae
          exact (Except.error.inj hae).symm
        rw [heq]
        have hT : (generateContentWithFallbackT attempt [lm] last).2 = .error e0 := by
          rw [generateContentWithFallbackT, he0]
          show (match generateContentWithFallbackT attempt [] (some e0) with
            | (tr, r) => ((lm, Except.error e0) :: tr, r)).2 = Except.error e0
          simp [generateContentWithFallbackT]
        exact hT
      | cons b ms2 =>
        rw [generateContentWithFallbackT, he0]
        have hlast2 : (b :: ms2).getLast? = some lm := by
          rw [← hlast]
          rw [List.getLast?_cons_cons]
        exact ihm.2 lm e hlast2 hae

/-! ## Case lemmas for `readLogFile` -/

theorem readLogFile_none (fs : FS) (p : FsPath) (h : fs.fileContent p = none) :
    readLogFile fs p = .ok (.arr []) := by
  rw [readLogFile, h]

theorem readLogFile_blank (fs : FS) (p : FsPath) (c : String)
    (hc : fs.fileContent p = some c) (he : jsTrim c = "") :
    readLogFile fs p = .ok (.arr []) := by
  rw [readLogFile, hc]
  show (if jsTrim c = "" then Except.ok (Json.arr [])
    else match jsonParse (jsTrim c) with
      | some v => Except.ok v
      | none => Except.error Err.parseFailed) = Except.ok (.arr [])
  rw [if_pos he]

theorem readLogFile_invalid (fs : FS) (p : FsPath) (c : String)
    (hc : fs.fileContent p = some c) (hne : ¬ jsTrim c = "")
    (hp : jsonParse (jsTrim c) = none) :
    readLogFile fs p = .error Err.parseFailed := by
  rw [readLogFile, hc]
  show (if jsTrim c = "" then Except.ok (Json.arr [])
    else match jsonParse (jsTrim c) with
      | some v => Except.ok v
      | none => Except.error Err.parseFailed) = Except.error Err.parseFailed
  rw [if_neg hne, hp]

theorem readLogFile_valid (fs : FS) (p : FsPath) (c : String) (v : Json)
    (hc : fs.fileContent p = some c) (hp : jsonParse (jsTrim c) = some v) :
    readLogFile fs p = .ok v := by
  have hne : ¬ jsTrim c = "" := by
    intro h0
    rw [h0, show jsonParse "" = none from rfl] at hp
    cases hp
  rw [readLogFile, hc]
  show (if jsTrim c = "" then Except.ok (Json.arr [])
    else match jsonParse (jsTrim c) with
      | some v => Except.ok v
      | none => Except.error Err.parseFailed) = Except.ok v
  rw [if_neg hne, hp]

theorem readLogFile_ensureDir (fs : FS) (d : FsPath) (p : FsPath) :
    readLogFile (ensureDir fs d) p = readLogFile fs p := by
  rw [readLogFile, readLogFile, fileContent_ensureDir]

/-! ## Injectivity of the record serialization -/

theorem LogSource.toStr_inj : ∀ a b : LogSource, a.toStr = b.toStr → a = b := by
  intro a b h
  cases a <;> cases b <;> first
    | rfl
    | simp [LogSource.toStr] at h

theorem entryToJson_inj : ∀ a b : LogEntry, entryToJson a = entryToJson b → a = b := by
  intro a b h
  cases a
  cases b
  simp only [entryToJson, Json.obj.injEq, List.cons.injEq, Prod.mk.injEq, Json.str.injEq,
    and_true, true_and] at h
  obtain ⟨h1, h2, h3, h4, h5, h6, h7, h8⟩ := h
  simp_all
  exact LogSource.toStr_inj _ _ h8

/-! ## Demo fixtures used by concrete instances -/

/-- An empty file system. -/
def fsEmpty : FS := ⟨[], []⟩

/-- A file system whose only log file holds a single whitespace character. -/
def wsOnlyFs : FS := ⟨[], [(["log.json"], " ")]⟩

/-- A file system whose only log file holds `{}` (valid JSON, not a Record
sequence). -/
def wrongShapeFs : FS := ⟨[], [(["log.json"], "\x7b\x7d")]⟩

/-- A concrete log entry. -/
def demoEntry : LogEntry :=
  ⟨"2026-02-28T16:30:00.000Z", "fix bug", "fix bug", "", "", "h", "s", .manual⟩

/-- C6: the claim's error condition is too broad on two counts.  Whitespace-only
content is non-empty and is not a valid serialized Record sequence, yet the
read returns the empty sequence; `{}` is non-empty valid JSON that is not a
Record sequence, yet the read succeeds and returns it unvalidated. -/
theorem claim_c6_counterexample :
    (" " : String) ≠ "" ∧ validRecordSeq " " = false ∧
    readLogFile wsOnlyFs ["log.json"] = .ok (.arr []) ∧
    ("\x7b\x7d" : String) ≠ "" ∧ validRecordSeq "\x7b\x7d" = false ∧
    readLogFile wrongShapeFs ["log.json"] = .ok (.obj []) := by
  decide

/-- C6 (amended): the read returns the empty sequence when the file is missing
or its content trims to the empty string; it fails with the ParseError exactly
when the trimmed content is non-empty and is not valid JSON; when the trimmed
content is valid JSON the parsed value is returned without any validation of
the Record shape. -/
theorem claim_c6_read_spec :
    ∀ (fs : FS) (p : FsPath),
      (fs.fileContent p = none → readLogFile fs p = .ok (.arr [])) ∧
      (∀ c, fs.fileContent p = some c →
        (jsTrim c = "" → readLogFile fs p = .ok (.arr [])) ∧
        (¬ jsTrim c = "" → jsonParse (jsTrim c) = none →
          readLogFile fs p = .error Err.parseFailed) ∧
        (∀ v, jsonParse (jsTrim c) = some v → readLogFile fs p = .ok v)) := by
  intro fs p
  refine ⟨readLogFile_none fs p, ?_⟩
  intro c hc
  exact ⟨readLogFile_blank fs p c hc,
    readLogFile_invalid fs p c hc,
    fun v hv => readLogFile_valid fs p c v hc hv⟩

/-- C6 witness: the amended spec applied to a concrete file system. -/
theorem claim_c6_witness :
    readLogFile wrongShapeFs ["log.json"] = .ok (.obj []) :=
  ((claim_c6_read_spec wrongShapeFs ["log.json"]).2 "\x7b\x7d" (by decide)).2.2
    (.obj []) (by decide)

/-- C8: the claim asserts that the log-store write creates missing parent
directories; in fact `writeLogFile` performs no `ensureDir` and fails with
`ENOENT` on an empty file system. -/
theorem claim_c8_counterexample :
    fsEmpty.dirExists (["logs", "d.json"] : FsPath).dropLast = false ∧
    writeLogFile fsEmpty ["logs", "d.json"] [] = .error Err.enoent := by
  decide

/-- C8 (amended): the write serializes the full sequence with the
human-readable 2-space-indented serialization and overwrites any existing
content at the path, but it does not create parent directories: it succeeds
exactly when the parent directory already exists, fails with `ENOENT`
otherwise, and never changes the directory set. -/
theorem claim_c8_write_spec :
    ∀ (fs : FS) (p : FsPath) (entries : List Json),
      (fs.dirExists p.dropLast = true →
        writeLogFile fs p entries = .ok (fs.setFile p (stringifyTop (.arr entries))) ∧
        (fs.setFile p (stringifyTop (.arr entries))).fileContent p =
          some (stringifyTop (.arr entries)) ∧
        (fs.setFile p (stringifyTop (.arr entries))).dirs = fs.dirs) ∧
      (fs.dirExists p.dropLast = false → writeLogFile fs p entries = .error Err.enoent) := by
  intro fs p entries
  constructor
  · intro h
    refine ⟨?_, fileContent_setFile fs p _, rfl⟩
    rw [writeLogFile, writeFileSync, if_pos h]
  · intro h
    rw [writeLogFile, writeFileSync, if_neg (by simp [h])]

/-- C8 witness: a write into an existing directory succeeds and stores the
serialized sequence. -/
theorem claim_c8_witness :
    writeLogFile ⟨[["logs"]], []⟩ ["logs", "d.json"] [entryToJson demoEntry] =
      .ok ((⟨[["logs"]], []⟩ : FS).setFile ["logs", "d.json"]
        (stringifyTop (.arr [entryToJson demoEntry]))) :=
  ((claim_c8_write_spec ⟨[["logs"]], []⟩ ["logs", "d.json"] [entryToJson demoEntry]).1
    (by decide)).1

/-- C9: write/read round trip of the log store — writing any sequence of
Records (with the parent directory present, as every caller guarantees via
`ensureDir`) and reading the path back yields the same sequence in the same
order, and the serialization is injective on records. -/
theorem claim_c9_round_trip :
    ∀ (fs : FS) (p : FsPath) (records : List LogEntry),
      fs.dirExists p.dropLast = true →
      writeLogFile fs p (records.map entryToJson) =
        .ok (fs.setFile p (stringifyTop (.arr (records.map entryToJson)))) ∧
      readLogFile (fs.setFile p (stringifyTop (.arr (records.map entryToJson)))) p =
        .ok (.arr (records.map entryToJson)) ∧
      (∀ rs1 rs2 : List LogEntry, rs1.map entryToJson = rs2.map entryToJson → rs1 = rs2) := by
  intro fs p records hdir
  have hS : ∀ e ∈ records.map entryToJson, SJson e := by
    intro e he
    obtain ⟨r, _, hr⟩ := List.mem_map.mp he
    rw [← hr]
    exact SJson_entryToJson r
  obtain ⟨hw, hr⟩ := readLogFile_writeLogFile fs p (records.map entryToJson) hdir hS
  refine ⟨hw, hr, ?_⟩
  intro rs1 rs2 h
  exact List.map_injective_iff.mpr entryToJson_inj h

/-- C9 witness: the round trip at a concrete file system and record list. -/
theorem claim_c9_witness :
    readLogFile ((⟨[["d"]], []⟩ : FS).setFile ["d", "l.json"]
        (stringifyTop (.arr ([demoEntry].map entryToJson)))) ["d", "l.json"] =
      .ok (.arr ([demoEntry].map entryToJson)) :=
  (claim_c9_round_trip ⟨[["d"]], []⟩ ["d", "l.json"] [demoEntry] (by decide)).2.1

/-- C7: append is read-modify-write — whenever the current read yields a
sequence, append writes that sequence with the record serialized at the end
(after ensuring the parent directory); on a fresh path it creates the parent
directory and the file, and a subsequent read yields exactly the one-element
sequence holding a record equal to the appended one (equal because
`entryToJson` is injective, per C9's theorem). -/
theorem claim_c7_append_spec :
    ∀ (fs : FS) (p : FsPath) (r : LogEntry),
      (∀ entries, readLogFile fs p = .ok (.arr entries) →
        appendLogEntry fs p r =
          writeLogFile (ensureDir fs p.dropLast) p (entries ++ [entryToJson r])) ∧
      (fs.fileContent p = none →
        appendLogEntry fs p r =
          .ok ((ensureDir fs p.dropLast).setFile p (stringifyTop (.arr [entryToJson r]))) ∧
        ((ensureDir fs p.dropLast).setFile p
          (stringifyTop (.arr [entryToJson r]))).dirExists p.dropLast = true ∧
        readLogFile ((ensureDir fs p.dropLast).setFile p
          (stringifyTop (.arr [entryToJson r]))) p = .ok (.arr [entryToJson r])) := by
  intro fs p r
  constructor
  · intro entries hread
    rw [appendLogEntry]
    rw [readLogFile_ensureDir, hread]
  · intro hfresh
    have hread : readLogFile fs p = .ok (.arr []) := readLogFile_none fs p hfresh
    have hdir : (ensureDir fs p.dropLast).dirExists p.dropLast = true :=
      dirExists_ensureDir fs p.dropLast
    have hS : ∀ e ∈ [entryToJson r], SJson e := by
      intro e he
      simp at he
      rw [he]
      exact SJson_entryToJson r
    obtain ⟨hw, hr⟩ :=
      readLogFile_writeLogFile (ensureDir fs p.dropLast) p [entryToJson r] hdir hS
    refine ⟨?_, ?_, hr⟩
    · rw [appendLogEntry]
      rw [readLogFile_ensureDir, hread]
      show writeLogFile (ensureDir fs p.dropLast) p ([] ++ [entryToJson r]) = _
      rw [List.nil_append, hw]
    · exact hdir

/-- C7 witness: appending to a fresh path on an empty file system. -/
theorem claim_c7_witness :
    appendLogEntry fsEmpty ["p", "l.json"] demoEntry =
      .ok ((ensureDir fsEmpty (["p", "l.json"] : FsPath).dropLast).setFile ["p", "l.json"]
        (stringifyTop (.arr [entryToJson demoEntry]))) :=
  ((claim_c7_append_spec fsEmpty ["p", "l.json"] demoEntry).2 (by decide)).1

/-! ## Claims about the fallback orchestrator and the summarization client -/

/-- A model-call oracle that succeeds with whitespace-padded output. -/
def trimDemoAttempt : String → String → Except GenErr String := fun _ _ => .ok " C-output "

/-- A model-call oracle where `A` and `B` fail and `C` succeeds. -/
def abcAttempt : String → String → Except GenErr String := fun _ m =>
  if m = "C" then .ok "out" else .error (.mk m)

/-- A model-call oracle that always fails. -/
def allFailAttempt : String → String → Except GenErr String := fun _ _ => .error (.mk "boom")

/-- C2: the claim states the result equals the first succeeding candidate's
output; the code returns that output `.trim()`med, so they differ whenever the
output carries surrounding whitespace. -/
theorem claim_c2_counterexample :
    trimDemoAttempt "p" "A" = .ok " C-output " ∧
    generateContentWithFallback trimDemoAttempt "p" ["A"] = .ok "C-output" ∧
    ¬ generateContentWithFallback trimDemoAttempt "p" ["A"] = .ok " C-output " := by
  decide

/-- C2 (amended: the result is the first succeeding candidate's output trimmed
of surrounding whitespace): candidates are attempted strictly in list order
with exactly one attempt each and no retry; the first success stops the
iteration (later candidates are never invoked, each earlier failure is
observed exactly once); when every candidate fails, the failure observed from
the last candidate is propagated as the single error and every candidate was
attempted exactly once. -/
theorem claim_c2_fallback_spec :
    (∀ (attempt : String → String → Except GenErr String) (prompt : String)
       (pre : List String) (m : String) (post : List String) (out : String),
      (∀ x ∈ pre, ∃ e, attempt prompt x = .error e) →
      attempt prompt m = .ok out →
      generateContentWithFallback attempt prompt (pre ++ m :: post) = .ok (jsTrim out) ∧
      generateContentWithFallbackTrace attempt prompt (pre ++ m :: post) =
        pre.map (fun x => (x, attempt prompt x)) ++ [(m, .ok out)]) ∧
    (∀ (attempt : String → String → Except GenErr String) (prompt : String)
       (models : List String) (lm : String) (e : GenErr),
      (∀ x ∈ models, ∃ e2, attempt prompt x = .error e2) →
      models.getLast? = some lm →
      attempt prompt lm = .error e →
      generateContentWithFallback attempt prompt models = .error e ∧
      generateContentWithFallbackTrace attempt prompt models =
        models.map (fun x => (x, attempt prompt x))) := by
  constructor
  · intro attempt prompt pre m post out hpre hm
    have h := fallbackT_split (attempt prompt) pre m post out hpre hm none
    constructor
    · rw [generateContentWithFallback, h]
    · rw [generateContentWithFallbackTrace, h]
  · intro attempt prompt models lm e hall hlast he
    have h := fallbackT_all_fail (attempt prompt) models hall none
    constructor
    · rw [generateContentWithFallback, h.2 lm e hlast he]
    · rw [generateContentWithFallbackTrace, h.1]

/-- C2 witness: with candidates `[A, B, C]` where `A` and `B` fail and `C`
succeeds, the result is `C`'s (trimmed) output, the failures are each
observed once and `C` is invoked exactly once. -/
theorem claim_c2_witness :
    generateContentWithFallback abcAttempt "p" (["A", "B"] ++ "C" :: []) = .ok (jsTrim "out") ∧
    generateContentWithFallbackTrace abcAttempt "p" (["A", "B"] ++ "C" :: []) =
      ["A", "B"].map (fun x => (x, abcAttempt "p" x)) ++ [("C", .ok "out")] :=
  claim_c2_fallback_spec.1 abcAttempt "p" ["A", "B"] "C" [] "out"
    (by
      intro x hx
      simp at hx
      rcases hx with h | h <;> subst h
      · exact ⟨GenErr.mk "A", by decide⟩
      · exact ⟨GenErr.mk "B", by decide⟩)
    (by decide)

/-- C3: `summarizeCode` never surfaces a failure (its embedding is total by
type): a blank code context returns the fixed placeholder immediately with no
model call at all (empty attempt trace), and when every fallback candidate
fails the fixed "(AI summary unavailable)" placeholder is returned instead of
an error, so the produced summary is never absent. -/
theorem claim_c3_summarize_total :
    ∀ (attempt : String → String → Except GenErr String) (snippet : String)
      (task : Option String),
      (jsTrim snippet = "" →
        summarizeCode attempt snippet task = ("(no code context available)", [])) ∧
      (¬ jsTrim snippet = "" →
        (∀ p m, m ∈ FALLBACK_MODELS → ∃ e, attempt p m = .error e) →
        (summarizeCode attempt snippet task).1 = "(AI summary unavailable)") := by
  intro attempt snippet task
  constructor
  · intro hb
    rw [summarizeCode, if_pos hb]
  · intro hnb hall
    obtain ⟨e, he⟩ := hall (summarizePrompt snippet task) "gemini-2.5-flash" (by decide)
    have h2 := (fallbackT_all_fail (attempt (summarizePrompt snippet task)) FALLBACK_MODELS
      (fun x hx => hall _ x hx) none).2 "gemini-2.5-flash" e (by decide) he
    rw [summarizeCode, if_neg hnb]
    rcases hEq : generateContentWithFallbackT (attempt (summarizePrompt snippet task))
      FALLBACK_MODELS none with ⟨tr, r⟩
    rw [hEq] at h2
    simp only at h2
    subst h2
    show (match generateContentWithFallbackT (attempt (summarizePrompt snippet task))
        FALLBACK_MODELS none with
      | (tr, Except.ok s) => (s, tr)
      | (tr, Except.error _) => ("(AI summary unavailable)", tr)).1 = "(AI summary unavailable)"
    rw [hEq]

/-- C3 witness: a non-blank snippet with an always-failing oracle yields the
placeholder, and a blank snippet yields the no-context placeholder with an
empty call trace. -/
theorem claim_c3_witness :
    (summarizeCode allFailAttempt "x" none).1 = "(AI summary unavailable)" ∧
    summarizeCode allFailAttempt "  " none = ("(no code context available)", []) :=
  ⟨(claim_c3_summarize_total allFailAttempt "x" none).2 (by decide)
      (fun p m _ => ⟨.mk "boom", rfl⟩),
    (claim_c3_summarize_total allFailAttempt "  " none).1 (by decide)⟩

/-! ## Claims about aggregation -/

theorem generateTimesheetFromLogs_firstOk (attempt : String → String → Except GenErr String)
    (s : String) (entries : Json) (dateStr : String)
    (h1 : attempt (timesheetPrompt (stringifyTop entries) dateStr) "gemini-3-flash-preview" =
      .ok s) :
    generateTimesheetFromLogs attempt entries dateStr =
      match jsonParse (processResponse (jsTrim s)) with
      | some parsed => .ok parsed
      | none => .error (.mk "Gemini failed to generate a valid timesheet.") := by
  have h := fallbackT_split (attempt (timesheetPrompt (stringifyTop entries) dateStr)) []
    "gemini-3-flash-preview" ["gemini-2.5-pro", "gemini-2.5-flash"] s (by simp) h1 none
  show (match (generateContentWithFallbackT
      (attempt (timesheetPrompt (stringifyTop entries) dateStr)) FALLBACK_MODELS none).2 with
    | Except.ok text =>
      match jsonParse (processResponse text) with
      | some parsed => Except.ok parsed
      | none => Except.error (GenErr.mk "Gemini failed to generate a valid timesheet.")
    | Except.error _ => Except.error (GenErr.mk "Gemini failed to generate a valid timesheet."))
    = match jsonParse (processResponse (jsTrim s)) with
      | some parsed => Except.ok parsed
      | none => Except.error (GenErr.mk "Gemini failed to generate a valid timesheet.")
  rw [show (FALLBACK_MODELS : List String) = [] ++ "gemini-3-flash-preview" ::
    ["gemini-2.5-pro", "gemini-2.5-flash"] from rfl, h]

/-- The expected parsed value of C5's concrete response. -/
def c5Expected : Json :=
  .obj [("date", .str "2026-02-28"),
        ("tasks", .arr [.obj [("category", .str "Debugging"),
          ("entries", .arr [.obj [("task", .str "Fix null check"),
            ("start", .str "09:00"), ("end", .str "09:30")]])]])]

/-- C5's concrete response, bare. -/
def c5Bare : String :=
  "\x7b\"date\":\"2026-02-28\",\"tasks\":[\x7b\"category\":\"Debugging\",\"entries\":[\x7b\"task\":\"Fix null check\",\"start\":\"09:00\",\"end\":\"09:30\"\x7d]\x7d]\x7d"

/-- C5's concrete response wrapped in plain code fences. -/
def c5FencedPlain : String := "```\n" ++ c5Bare ++ "\n```"

/-- C5's concrete response wrapped in a `json`-tagged code fence. -/
def c5FencedJson : String := "```json\n" ++ c5Bare ++ "\n```"

set_option maxRecDepth 40000 in
/-- C5: aggregation on the concrete well-formed response — bare, fenced, or
`json`-fenced (fences are stripped before parsing) — returns the Timesheet
value with date `2026-02-28` and exactly one category `Debugging` holding
exactly one entry `Fix null check` from `09:00` to `09:30`. -/
theorem claim_c5_aggregation :
    ∀ (entries : Json) (dateStr : String),
      generateTimesheetFromLogs (fun _ _ => .ok c5Bare) entries dateStr = .ok c5Expected ∧
      generateTimesheetFromLogs (fun _ _ => .ok c5FencedPlain) entries dateStr =
        .ok c5Expected ∧
      generateTimesheetFromLogs (fun _ _ => .ok c5FencedJson) entries dateStr =
        .ok c5Expected ∧
      decodeTimesheet c5Expected =
        some ⟨"2026-02-28", [⟨"Debugging", [⟨"Fix null check", "09:00", "09:30"⟩]⟩]⟩ := by
  intro entries dateStr
  refine ⟨?_, ?_, ?_, by decide⟩ <;>
    · rw [generateTimesheetFromLogs_firstOk _ _ _ _ rfl]
      decide

/-- The file system used by C4's concrete run: one non-empty day log and a
pre-existing timesheet file with content `old`. -/
def c4Fs : FS :=
  ⟨[["w"]], [(["w", "d.logs.json"], "[\x7b\x7d]"), (["w", "d.timesheet.json"], "old")]⟩

set_option maxRecDepth 40000 in
/-- C4: the claim asserts a hard error (and no write) for responses that do
not match the Timesheet shape; in fact the `as Timesheet` cast never checks
the shape: the valid-JSON response `{}` is not Timesheet-shaped, yet
aggregation returns it and the command writes it, replacing the prior
timesheet file. -/
theorem claim_c4_counterexample :
    decodeTimesheet (.obj []) = none ∧
    generateTimesheetFromLogs (fun _ _ => .ok "\x7b\x7d") (.arr [.obj []]) "d" =
      .ok (.obj []) ∧
    (generateTimesheet (fun _ _ => .ok "\x7b\x7d") c4Fs ["w", "d.logs.json"]
      ["w", "d.timesheet.json"] "d").2 = .saved ∧
    (generateTimesheet (fun _ _ => .ok "\x7b\x7d") c4Fs ["w", "d.logs.json"]
      ["w", "d.timesheet.json"] "d").1.fileContent ["w", "d.timesheet.json"] =
      some "\x7b\x7d" ∧
    c4Fs.fileContent ["w", "d.timesheet.json"] = some "old" := by
  decide

/-- C4 (amended): for every model response text that (after fence stripping
and trimming) is not valid JSON, aggregation raises the hard
`Gemini failed to generate a valid timesheet` error — never a default
timesheet — and the command performs no write at all: the file system,
including any prior timesheet file for the date, is unchanged.  (Shape
validation does not happen: valid JSON of any shape is accepted and written,
per the counterexample.) -/
theorem claim_c4_parse_failure :
    ∀ (t : String) (entries : Json) (dateStr : String) (fs : FS)
      (logPath tsPath : FsPath),
      jsonParse (processResponse (jsTrim t)) = none →
      generateTimesheetFromLogs (fun _ _ => .ok t) entries dateStr =
        .error (.mk "Gemini failed to generate a valid timesheet.") ∧
      (generateTimesheet (fun _ _ => .ok t) fs logPath tsPath dateStr).1 = fs := by
  intro t entries dateStr fs logPath tsPath hp
  have hgen : ∀ v : Json, generateTimesheetFromLogs (fun _ _ => .ok t) v dateStr =
      .error (.mk "Gemini failed to generate a valid timesheet.") := by
    intro v
    rw [generateTimesheetFromLogs_firstOk _ _ _ _ rfl, hp]
  refine ⟨hgen entries, ?_⟩
  rw [generateTimesheet]
  cases hex : fileExists fs logPath with
  | false => rw [if_pos (by simp [hex])]
  | true =>
    rw [if_neg (by simp [hex])]
    cases hrd : readLogFile fs logPath with
    | error e => rfl
    | ok v =>
      show (if jsLenEqZero v then (fs, CmdResult.emptyLog)
        else match generateTimesheetFromLogs (fun _ _ => .ok t) v dateStr with
          | .error _ => (fs, CmdResult.genFailed)
          | .ok timesheet =>
            match writeTimesheetFile fs tsPath timesheet with
            | .ok fs2 => (fs2, CmdResult.saved)
            | .error _ => (fs, CmdResult.writeFailed)).1 = fs
      by_cases hlz : jsLenEqZero v = true
      · rw [if_pos hlz]
      · rw [if_neg hlz, hgen v]

/-- C4 witness: a non-JSON response on a concrete file system triggers the
hard error and leaves the file system (with its prior timesheet) unchanged. -/
theorem claim_c4_witness :
    generateTimesheetFromLogs (fun _ _ => .ok "not json") (.arr [.obj []]) "d" =
      .error (.mk "Gemini failed to generate a valid timesheet.") ∧
    (generateTimesheet (fun _ _ => .ok "not json") c4Fs ["w", "d.logs.json"]
      ["w", "d.timesheet.json"] "d").1 = c4Fs :=
  ⟨(claim_c4_parse_failure "not json" (.arr [.obj []]) "d" c4Fs ["w", "d.logs.json"]
      ["w", "d.timesheet.json"] (by decide)).1,
    (claim_c4_parse_failure "not json" (.arr [.obj []]) "d" c4Fs ["w", "d.logs.json"]
      ["w", "d.timesheet.json"] (by decide)).2⟩

/-! ## Claims about the duplicate guard -/

/-- The duplicate check applied to the (optional) last element of the parsed
array — the tail of `isDuplicateEntry` after a successful array read. -/
def dupFromLast (getTime : Option Json → Option Int) (now : Int) (cand : String) :
    Option Json → Except Err Bool
  | none => .ok false
  | some lastV =>
    match jsProp lastV "aiPrompt" with
    | .error e => .error e
    | .ok p1 =>
      match (if nullishOpt p1 then jsProp lastV "description" else .ok p1) with
      | .error e => .error e
      | .ok p2 =>
        let lastPrompt : Json :=
          match p2 with
          | some w => if w = Json.null then .str "" else w
          | none => .str ""
        if lastPrompt ≠ Json.str cand then .ok false
        else
          match jsProp lastV "timestamp" with
          | .error e => .error e
          | .ok tsField =>
            match getTime tsField with
            | none => .ok false
            | some lastTime => .ok (decide (now - lastTime < TWO_MINUTES_MS))

theorem isDuplicateEntry_ok_arr (getTime : Option Json → Option Int) (now : Int)
    (fs : FS) (p : FsPath) (cand : String) (entries : List Json)
    (hread : readLogFile fs p = .ok (.arr entries)) :
    isDuplicateEntry getTime now fs p cand =
      dupFromLast getTime now cand entries.getLast? := by
  rw [isDuplicateEntry, hread]
  show (match entries.getLast? with
    | none => Except.ok false
    | some lastV =>
      match jsProp lastV "aiPrompt" with
      | Except.error e => Except.error e
      | Except.ok p1 =>
        match (if nullishOpt p1 then jsProp lastV "description" else Except.ok p1) with
        | Except.error e => Except.error e
        | Except.ok p2 =>
          let lastPrompt : Json :=
            match p2 with
            | some w => if w = Json.null then Json.str "" else w
            | none => Json.str ""
          if lastPrompt ≠ Json.str cand then Except.ok false
          else
            match jsProp lastV "timestamp" with
            | Except.error e => Except.error e
            | Except.ok tsField =>
              match getTime tsField with
              | none => Except.ok false
              | some lastTime => Except.ok (decide (now - lastTime < TWO_MINUTES_MS)))
    = dupFromLast getTime now cand entries.getLast?
  cases entries.getLast? with
  | none => rfl
  | some lastV => rfl

/-- String-or-absent property values (the shapes `??` falls through). -/
def optStrFieldB : Option Json → Bool
  | none => true
  | some .null => true
  | some (.str _) => true
  | _ => false

theorem optStrFieldB_cases (o : Option Json) (h : optStrFieldB o = true) :
    o = none ∨ o = some Json.null ∨ ∃ s, o = some (.str s) := by
  match o with
  | none => exact Or.inl rfl
  | some .null => exact Or.inr (Or.inl rfl)
  | some (.str s) => exact Or.inr (Or.inr ⟨s, rfl⟩)
  | some (.bool _) => simp [optStrFieldB] at h
  | some (.num _) => simp [optStrFieldB] at h
  | some (.arr _) => simp [optStrFieldB] at h
  | some (.obj _) => simp [optStrFieldB] at h

/-- The prompt text of a stored record: the `aiPrompt` field, falling back to
`description`, defaulting to the empty string (the `?? '' ` chain). -/
def lastPromptOf (fields : List (String × Json)) : String :=
  match lookupLast fields "aiPrompt" with
  | some (.str s) => s
  | _ =>
    match lookupLast fields "description" with
    | some (.str s) => s
    | _ => ""

theorem isDuplicateEntry_eval (getTime : Option Json → Option Int) (now : Int)
    (fs : FS) (p : FsPath) (cand : String) (entries : List Json)
    (fields : List (String × Json)) (ts : String)
    (hread : readLogFile fs p = .ok (.arr entries))
    (hlast : entries.getLast? = some (.obj fields))
    (hai : optStrFieldB (lookupLast fields "aiPrompt") = true)
    (hde : optStrFieldB (lookupLast fields "description") = true)
    (hts : lookupLast fields "timestamp" = some (.str ts)) :
    isDuplicateEntry getTime now fs p cand =
      (if Json.str (lastPromptOf fields) ≠ Json.str cand then Except.ok false
       else match getTime (some (.str ts)) with
         | none => Except.ok false
         | some t => Except.ok (decide (now - t < TWO_MINUTES_MS))) := by
  rw [isDuplicateEntry_ok_arr getTime now fs p cand entries hread, hlast]
  rcases optStrFieldB_cases _ hai with ha | ha | ⟨sa, ha⟩ <;>
    rcases optStrFieldB_cases _ hde with hd | hd | ⟨sd, hd⟩ <;>
      simp only [dupFromLast, jsProp, ha, hd, hts, nullishOpt, lastPromptOf, if_true, if_false] <;>
      simp

/-- Lifting the boolean outcome to the claim's characterization. -/
theorem dup_decision (getTime : Option Json → Option Int) (now : Int) (cand s ts : String) :
    ∃ b, (if Json.str s ≠ Json.str cand then Except.ok false
          else match getTime (some (.str ts)) with
            | none => Except.ok (ε := Err) false
            | some t => Except.ok (decide (now - t < TWO_MINUTES_MS))) = Except.ok b ∧
      (b = true ↔ (s = cand ∧ ∃ t, getTime (some (.str ts)) = some t ∧
        now - t < TWO_MINUTES_MS)) := by
  by_cases hc : s = cand
  · subst hc
    rw [if_neg (by simp)]
    cases hgt : getTime (some (.str ts)) with
    | none => exact ⟨false, rfl, by simp⟩
    | some t =>
      refine ⟨decide (now - t < TWO_MINUTES_MS), rfl, ?_⟩
      simp
  · refine ⟨false, ?_, ?_⟩
    · rw [if_pos (by simp [hc])]
    · simp [hc]

/-- The day log of the claim's concrete scenario: one record with prompt
`fix bug` at timestamp `T`. -/
def dupDemoFs : FS :=
  ⟨[], [(["log.json"], "[\x7b\"timestamp\":\"T\",\"aiPrompt\":\"fix bug\"\x7d]")]⟩

/-- The `new Date(x).getTime()` oracle of the concrete scenario: timestamp
`T` denotes instant 0 (milliseconds), anything else is `NaN`. -/
def dupDemoTime : Option Json → Option Int :=
  fun o => if o = some (.str "T") then some 0 else none

/-- C1: over any readable day log, the guard returns false on an empty log;
otherwise it inspects only the last record and returns true exactly when the
candidate equals the last record's prompt (`aiPrompt`, falling back to
`description` when absent, `''` when both are absent) and the record's
timestamp converts to an instant less than two minutes before `now`
(a `NaN` conversion never matches).  The claim's concrete instances: a log
with one `fix bug` record at instant `T` reports a duplicate for `fix bug`
at `T+90s`, none at `T+150s`, and none for `fix bugs` at `T+10s`. -/
theorem claim_c1_duplicate_guard :
    (∀ (getTime : Option Json → Option Int) (now : Int) (fs : FS) (p : FsPath)
       (cand : String) (entries : List Json),
      readLogFile fs p = .ok (.arr entries) →
      (entries = [] → isDuplicateEntry getTime now fs p cand = .ok false) ∧
      (∀ fields ts, entries.getLast? = some (.obj fields) →
        optStrFieldB (lookupLast fields "aiPrompt") = true →
        optStrFieldB (lookupLast fields "description") = true →
        lookupLast fields "timestamp" = some (.str ts) →
        ∃ b, isDuplicateEntry getTime now fs p cand = .ok b ∧
          (b = true ↔ (lastPromptOf fields = cand ∧
            ∃ t, getTime (some (.str ts)) = some t ∧ now - t < TWO_MINUTES_MS)))) ∧
    (∀ (getTime : Option Json → Option Int) (now : Int) (fs1 fs2 : FS)
       (p1 p2 : FsPath) (cand : String) (e1 e2 : List Json),
      readLogFile fs1 p1 = .ok (.arr e1) → readLogFile fs2 p2 = .ok (.arr e2) →
      e1.getLast? = e2.getLast? →
      isDuplicateEntry getTime now fs1 p1 cand = isDuplicateEntry getTime now fs2 p2 cand) ∧
    (isDuplicateEntry dupDemoTime 90000 dupDemoFs ["log.json"] "fix bug" = .ok true ∧
     isDuplicateEntry dupDemoTime 150000 dupDemoFs ["log.json"] "fix bug" = .ok false ∧
     isDuplicateEntry dupDemoTime 10000 dupDemoFs ["log.json"] "fix bugs" = .ok false) := by
  refine ⟨?_, ?_, by decide, by decide, by decide⟩
  · intro getTime now fs p cand entries hread
    constructor
    · intro he
      subst he
      rw [isDuplicateEntry_ok_arr getTime now fs p cand [] hread]
      rfl
    · intro fields ts hlast hai hde hts
      rw [isDuplicateEntry_eval getTime now fs p cand entries fields ts hread hlast hai hde hts]
      exact dup_decision getTime now cand (lastPromptOf fields) ts
  · intro getTime now fs1 fs2 p1 p2 cand e1 e2 h1 h2 he
    rw [isDuplicateEntry_ok_arr getTime now fs1 p1 cand e1 h1,
      isDuplicateEntry_ok_arr getTime now fs2 p2 cand e2 h2, he]

/-- C1 witness: the general characterization applied to the concrete log. -/
theorem claim_c1_witness :
    ∃ b, isDuplicateEntry dupDemoTime 90000 dupDemoFs ["log.json"] "fix bug" = .ok b ∧
      (b = true ↔ (lastPromptOf [("timestamp", .str "T"), ("aiPrompt", .str "fix bug")]
          = "fix bug" ∧
        ∃ t, dupDemoTime (some (.str "T")) = some t ∧ (90000 : Int) - t < TWO_MINUTES_MS)) :=
  ((claim_c1_duplicate_guard.1 dupDemoTime 90000 dupDemoFs ["log.json"] "fix bug"
      [.obj [("timestamp", .str "T"), ("aiPrompt", .str "fix bug")]] (by decide)).2
    [("timestamp", .str "T"), ("aiPrompt", .str "fix bug")] "T"
    (by decide) (by decide) (by decide) (by decide))

/-- C10: the claim's condition is too broad — a file whose content is a
single space is non-empty and not a valid Record sequence, yet the guard
returns `false` (not an error); an array of strings is valid JSON that is
not a Record sequence, and the guard again returns a boolean. -/
theorem claim_c10_counterexample :
    ((" " : String) ≠ "") ∧ validRecordSeq " " = false ∧
    isDuplicateEntry (fun _ => none) 0 wsOnlyFs ["log.json"] "x" = .ok false ∧
    validRecordSeq "[\"a\"]" = false ∧
    isDuplicateEntry (fun _ => none) 0 (⟨[], [(["log.json"], "[\"a\"]")]⟩ : FS)
      ["log.json"] "x" = .ok false := by
  decide

/-- C10 (amended): when the file's trimmed content is non-empty and is not
valid JSON, `isDuplicateEntry` does not return a boolean: it propagates the
ParseError raised by the underlying read, for every candidate text;
whitespace-only content is treated as an empty log and yields `false`. -/
theorem claim_c10_parse_propagation :
    ∀ (getTime : Option Json → Option Int) (now : Int) (fs : FS) (p : FsPath)
      (cand : String) (c : String),
      fs.fileContent p = some c →
      (¬ jsTrim c = "" → jsonParse (jsTrim c) = none →
        isDuplicateEntry getTime now fs p cand = .error Err.parseFailed) ∧
      (jsTrim c = "" → isDuplicateEntry getTime now fs p cand = .ok false) := by
  intro getTime now fs p cand c hc
  constructor
  · intro hne hp
    rw [isDuplicateEntry, readLogFile_invalid fs p c hc hne hp]
  · intro hb
    rw [isDuplicateEntry, readLogFile_blank fs p c hc hb]
    rfl

/-- C10 witness: malformed non-blank content propagates the ParseError. -/
theorem claim_c10_witness :
    isDuplicateEntry (fun _ => none) 0 (⟨[], [(["log.json"], "oops")]⟩ : FS)
      ["log.json"] "x" = .error Err.parseFailed :=
  (claim_c10_parse_propagation (fun _ => none) 0 ⟨[], [(["log.json"], "oops")]⟩
    ["log.json"] "x" "oops" (by decide)).1 (by decide) (by decide)
